import Mathlib

/-!
Verification of the Delft3D-Toolbox file codecs (GrdFile, DepFile, MdfFile,
TimeSeriesFile).  Text is modelled as `List Char`; Python floats are modelled
as exact rationals; the line-oriented and regex-driven parsers of the source
are translated into structural scanners over character lists.
-/

set_option maxRecDepth 10000

set_option allowUnsafeReducibility true

attribute [semireducible] Rat.add Rat.mul Rat.sub Rat.inv Rat.ofScientific

abbrev Str := List Char

/-- Space character. -/
def spc : Char := Char.ofNat 32

/-- Newline character. -/
def nlc : Char := Char.ofNat 10

/-- The `#` character. -/
def hashC : Char := Char.ofNat 35

/-- The `[` character. -/
def lbrkC : Char := Char.ofNat 91

/-- The `=` character. -/
def eqC : Char := Char.ofNat 61

/-- Lowercase `e`. -/
def eLow : Char := Char.ofNat 101

/-- Uppercase `E`. -/
def eUp : Char := Char.ofNat 69

/-- The `-` character. -/
def minusC : Char := Char.ofNat 45

/-- The `+` character. -/
def plusC : Char := Char.ofNat 43

/-- The `.` character. -/
def dotC : Char := Char.ofNat 46

/-- The `0` character. -/
def zeroC : Char := Char.ofNat 48

/-- Python `\s` over the ASCII texts handled by the codecs. -/
def isWS (c : Char) : Bool :=
  c.toNat = 32 || c.toNat = 9 || c.toNat = 10 || c.toNat = 13 || c.toNat = 12 || c.toNat = 11

/-- Python `\w` (ASCII): letters, digits and underscore. -/
def wordChar (c : Char) : Bool :=
  (48 ≤ c.toNat && c.toNat ≤ 57) || (65 ≤ c.toNat && c.toNat ≤ 90) ||
  (97 ≤ c.toNat && c.toNat ≤ 122) || c.toNat = 95

/-- ASCII digit. -/
def isDigitC (c : Char) : Bool := 48 ≤ c.toNat && c.toNat ≤ 57

/-- The mdf value character class `[\w .#+-:\[\]]` (note that `+-:` is the
range from `+` to `:`, so it also admits `,`, `-`, `.`, `/` and digits). -/
def valClassChar (c : Char) : Bool :=
  wordChar c || c.toNat = 32 || c.toNat = 46 || c.toNat = 35 ||
  (43 ≤ c.toNat && c.toNat ≤ 58) || c.toNat = 91 || c.toNat = 93

/-- The grd missing-value token class `[\w+-.]` (with `+-.` the range from
`+` to `.`). -/
def mvClassChar (c : Char) : Bool :=
  wordChar c || (43 ≤ c.toNat && c.toNat ≤ 46)

/-- The grd coordinate token class `[\d.Ee+]`. -/
def grdTokChar (c : Char) : Bool :=
  isDigitC c || c.toNat = 46 || c.toNat = 69 || c.toNat = 101 || c.toNat = 43

/-- The dep token class `[\d.E+-]` (`-` is literal here). -/
def depTokChar (c : Char) : Bool :=
  isDigitC c || c.toNat = 46 || c.toNat = 69 || c.toNat = 43 || c.toNat = 45

/-- `startsL p s` holds when `p` is an initial segment of `s`. -/
def startsL : Str → Str → Bool
  | [], _ => true
  | _ :: _, [] => false
  | c :: p, d :: s => c = d && startsL p s

/-- `hasChar s c`: does `c` occur in `s` (Python `c in s`)? -/
def hasChar (s : Str) (c : Char) : Bool := s.any (fun d => d = c)

/-- Left-justify to width `w` with spaces (Python `str.ljust` / `%-ws`). -/
def padR (s : Str) (w : ℕ) : Str := s ++ List.replicate (w - s.length) spc

/-- Right-justify to width `w` with spaces (Python `%wd` and friends). -/
def padL (s : Str) (w : ℕ) : Str := List.replicate (w - s.length) spc ++ s

/-- Left-pad with zeros to width `w` (used for `%02d`-style fields). -/
def padZ (s : Str) (w : ℕ) : Str := List.replicate (w - s.length) zeroC ++ s

/-- Python `str.rstrip(' ')`: drop trailing space characters only. -/
def rstripSpc (s : Str) : Str := (s.reverse.dropWhile (fun c => c = spc)).reverse

/-- Python `str.replace('#', '')`. -/
def remHash (s : Str) : Str := s.filter (fun c => ¬ c = hashC)

/-- Drop one trailing newline if present: the effect of the `$` anchor of the
source's line regexes on a `readlines` line. -/
def stripNL (s : Str) : Str :=
  if s.getLast? = some nlc then s.dropLast else s

/-- Whitespace split (Python `str.split()`): accumulator-based so that it
reduces structurally. -/
def splitWSAux : Str → Str → List Str
  | [], cur => if cur.isEmpty then [] else [cur.reverse]
  | c :: rest, cur =>
    if isWS c then
      (if cur.isEmpty then splitWSAux rest [] else cur.reverse :: splitWSAux rest [])
    else splitWSAux rest (c :: cur)

/-- Python `str.split()` with no separator: split on whitespace runs. -/
def splitWS (s : Str) : List Str := splitWSAux s []

/-- `Option`-valued map that fails when any element fails. -/
def mapOpt (f : α → Option β) : List α → Option (List β)
  | [] => some []
  | a :: t =>
    match f a, mapOpt f t with
    | some b, some bs => some (b :: bs)
    | _, _ => none

/-- Digit character for `d < 10`. -/
def digitCh (d : ℕ) : Char := Char.ofNat (48 + d)

/-- Decimal digits of a natural number, fuel-based so the kernel can
evaluate it. -/
def natStrAux : ℕ → ℕ → Str
  | 0, _ => []
  | fuel + 1, n => if n < 10 then [digitCh n] else natStrAux fuel (n / 10) ++ [digitCh (n % 10)]

/-- Decimal rendering of a natural number (Python `str`/`%d`). -/
def natStr (n : ℕ) : Str := natStrAux (n + 1) n

/-- Decimal rendering of an integer. -/
def intStr (z : ℤ) : Str := if z < 0 then minusC :: natStr z.natAbs else natStr z.toNat

/-- Numeric value of a run of digit characters. -/
def digitsVal (s : Str) : ℕ := s.foldl (fun acc c => 10 * acc + (c.toNat - 48)) 0

/-- Truncation toward zero (the effect of `int()` / `%d` on a Python float). -/
def ratTrunc (q : ℚ) : ℤ := q.num.tdiv q.den

/-- Floor of a rational as an integer. -/
def ratFloor (q : ℚ) : ℤ := q.num.fdiv q.den

/-- Round to nearest with ties to even, as C `printf` floating formatting
does on exactly representable ties. -/
def roundHE (x : ℚ) : ℤ :=
  let f := ratFloor x
  let r := x - (f : ℚ)
  if r < 1/2 then f
  else if (1:ℚ)/2 < r then f + 1
  else if f % 2 = 0 then f else f + 1

/-- Multiply by an integer power of ten. -/
def mulPow10 (a : ℚ) (z : ℤ) : ℚ :=
  if 0 ≤ z then a * (10 : ℚ) ^ z.toNat else a / (10 : ℚ) ^ (-z).toNat

/-- Number of decimal digits of a positive natural (fuel-based). -/
def digCountAux : ℕ → ℕ → ℕ
  | 0, _ => 0
  | fuel + 1, n => if n < 10 then 1 else digCountAux fuel (n / 10) + 1

/-- Number of decimal digits. -/
def digCount (n : ℕ) : ℕ := digCountAux (n + 1) n

/-- `10^e ≤ n/d < 10^(e+1)` for positive `n d`: the decimal exponent used by
scientific notation. -/
def expFloor (n d : ℕ) : ℤ :=
  let e0 : ℤ := (digCount n : ℤ) - (digCount d : ℤ)
  let ge : Bool :=
    if 0 ≤ e0 then decide (d * 10 ^ e0.toNat ≤ n) else decide (d ≤ n * 10 ^ (-e0).toNat)
  if ge then e0 else e0 - 1

/-- Scientific notation with `prec` fractional digits and exponent marker
`ec`: the exact-rational model of C `%.{prec}e` formatting. -/
def fmtSci (prec : ℕ) (ec : Char) (q : ℚ) : Str :=
  if q = 0 then
    [zeroC, dotC] ++ List.replicate prec zeroC ++ [ec, plusC, zeroC, zeroC]
  else
    let a : ℚ := |q|
    let e : ℤ := expFloor a.num.natAbs a.den
    let digs : ℤ := roundHE (mulPow10 a ((prec : ℤ) - e))
    let carry : Bool := decide (digs = 10 ^ (prec + 1))
    let e2 : ℤ := if carry then e + 1 else e
    let ds : Str := if carry then natStr (10 ^ prec) else natStr digs.toNat
    let mant : Str :=
      match ds with
      | [] => []
      | c :: rest => c :: dotC :: rest
    let esign : Str := if e2 < 0 then [minusC] else [plusC]
    (if q < 0 then [minusC] else []) ++ mant ++ [ec] ++ esign ++ padZ (natStr e2.natAbs) 2

/-- Parse an optional sign, returning the sign and the rest. -/
def parseSign : Str → (Bool × Str)
  | c :: rest =>
    if c = minusC then (true, rest)
    else if c = plusC then (false, rest)
    else (false, c :: rest)
  | [] => (false, [])

/-- Exact-rational model of Python `float(...)` on finite decimal /
scientific literals (leading and trailing whitespace stripped, as `float`
does). -/
def parseFloat (s0 : Str) : Option ℚ :=
  let s := (s0.dropWhile isWS).reverse.dropWhile isWS |>.reverse
  let (neg, s1) := parseSign s
  let ip := s1.takeWhile isDigitC
  let s2 := s1.drop ip.length
  let (fp, s3) :=
    match s2 with
    | c :: rest =>
      if c = dotC then
        let f := rest.takeWhile isDigitC
        (f, rest.drop f.length)
      else ([], s2)
    | [] => ([], [])
  if ip.isEmpty && fp.isEmpty then none
  else
    match s3 with
    | [] =>
      let mant : ℚ := (digitsVal ip : ℚ) + (digitsVal fp : ℚ) / (10 : ℚ) ^ fp.length
      some (if neg then -mant else mant)
    | c :: rest =>
      if c = eLow || c = eUp then
        let (eneg, r1) := parseSign rest
        let ed := r1.takeWhile isDigitC
        if ed.isEmpty || ¬ (r1.drop ed.length).isEmpty then none
        else
          let mant : ℚ := (digitsVal ip : ℚ) + (digitsVal fp : ℚ) / (10 : ℚ) ^ fp.length
          let ex : ℤ := if eneg then -(digitsVal ed : ℤ) else (digitsVal ed : ℤ)
          some (if neg then -(mulPow10 mant ex) else mulPow10 mant ex)
      else none

/-- Association-list lookup with the semantics of Python `dict.get`. -/
def lookupA {α : Type} : List (Str × α) → Str → Option α
  | [], _ => none
  | (k0, v0) :: t, k => if k0 = k then some v0 else lookupA t k

/-- Association-list update with the semantics of Python `d[k] = v`: replace
in place when the key exists (insertion order preserved), append otherwise. -/
def updA {α : Type} : List (Str × α) → Str → α → List (Str × α)
  | [], k, v => [(k, v)]
  | (k0, v0) :: t, k, v => if k0 = k then (k0, v) :: t else (k0, v0) :: updA t k v

/-! ## MdfFile: the key/value parameter-file codec (src/delft3d/MdfFile.py) -/

/-- The stored value of one mdf parameter, mirroring the Python runtime
types used by `MdfFile`: `float`, 1-D `ndarray`, 2-D column `ndarray`,
`str`, `list` of `str`. -/
inductive MVal : Type
  | num (q : ℚ)
  | arr (l : List ℚ)
  | mat (l : List ℚ)
  | vstr (s : Str)
  | vlist (l : List Str)
deriving DecidableEq

abbrev MDoc := List (Str × MVal)

/-- The match of `^([\w]+)\s*=\s*([\w .#+-:\[\]]*)$` against a stripped
line: the greedy word-character run, then whitespace, `=`, whitespace, and a
value made only of class characters. -/
def matchesMain (s : Str) : Option (Str × Str) :=
  let name := s.takeWhile wordChar
  if name.isEmpty then none
  else
    match (s.drop name.length).dropWhile isWS with
    | c :: r3 =>
      if c = eqC then
        let v := r3.dropWhile isWS
        if v.all valClassChar then some (name, v) else none
      else none
    | [] => none

/-- The match of `^\s+(.*)$` against a stripped line: at least one leading
whitespace character, capturing the rest. -/
def matchesCont (s : Str) : Option Str :=
  match s with
  | c :: _ => if isWS c then some (s.dropWhile isWS) else none
  | [] => none

/-- Classify the value of a `name = value` line exactly as
`MdfFile.load_file` does. -/
def classify (v : Str) : Option MVal :=
  if hasChar v hashC && ¬ hasChar v lbrkC then some (.vstr (remHash (rstripSpc v)))
  else if hasChar v lbrkC then some (.vstr v)
  else
    match mapOpt parseFloat (splitWS v) with
    | some [] => none
    | some [q] => some (.num q)
    | some l => some (.arr l)
    | none => none

/-- Process one continuation line for the most recent parameter
(`MdfFile.load_file`, `matches is None` branch). A `none` result models the
exceptions the source raises on malformed input. -/
def contLine (d : MDoc) (pn : Option Str) (s : Str) (content : Str) : Option MDoc :=
  match pn with
  | none => none
  | some p =>
    match lookupA d p with
    | none => none
    | some pv =>
      if hasChar s hashC then
        match pv with
        | .vlist l => some (updA d p (.vlist (l ++ [remHash content])))
        | .vstr s0 => some (updA d p (.vlist [s0, remHash content]))
        | _ => none
      else
        match parseFloat content with
        | none => none
        | some q =>
          match pv with
          | .num q0 => some (updA d p (.mat [q0, q]))
          | .arr l => some (updA d p (.mat (l ++ [q])))
          | .mat l => some (updA d p (.mat (l ++ [q])))
          | _ => none

/-- Line loop of `MdfFile.load_file`. -/
def mdfLoadAux : List Str → MDoc → Option Str → Option MDoc
  | [], d, _ => some d
  | line :: rest, d, pn =>
    let s := stripNL line
    match matchesMain s with
    | some (name, v) =>
      if name = "Commnt".toList then mdfLoadAux rest d pn
      else
        match classify v with
        | some mv => mdfLoadAux rest (updA d name mv) (some name)
        | none => none
    | none =>
      match matchesCont s with
      | none => none
      | some content =>
        match contLine d pn s content with
        | some d2 => mdfLoadAux rest d2 pn
        | none => none

/-- `MdfFile.load_file` over the list of lines of the file. -/
def mdfLoad (lines : List Str) : Option MDoc := mdfLoadAux lines [] none

/-- The fixed allow-list of integer-formatted keys in `MdfFile.export`. -/
def intKeys : List Str :=
  ["MNKmax".toList, "Ktemp".toList, "Ivapop".toList, "Irov".toList, "Iter".toList]

def isIntKey (k : Str) : Bool := intKeys.contains k

/-- Rendering of one numeric value for key `k` (`%d` for allow-listed keys,
`%.7e` otherwise). -/
def numTok (k : Str) (q : ℚ) : Str :=
  if isIntKey k then intStr (ratTrunc q) else fmtSci 7 eLow q

/-- `"%-6s = " % key` followed by a rendered value. -/
def kvHead (k : Str) (v : Str) : Str := padR k 6 ++ [spc, eqC, spc] ++ v

/-- The lines `MdfFile.export` emits for one stored entry. The `mat []` and
`vlist []` cases raise `IndexError` in the source and cannot arise from
parsing; they are rendered as no lines here and excluded by `wfMdf`. -/
def entryLines : Str × MVal → List Str
  | (k, .num q) => [kvHead k (numTok k q) ++ [nlc]]
  | (k, .arr l) => [padR k 6 ++ [spc, eqC] ++ l.flatMap (fun q => spc :: numTok k q) ++ [nlc]]
  | (_, .mat []) => []
  | (k, .mat (h :: t)) =>
    (kvHead k (numTok k h) ++ [nlc]) ::
      t.map (fun q => List.replicate 10 spc ++ numTok k q ++ [nlc])
  | (k, .vstr s) =>
    if hasChar s lbrkC then [kvHead k s ++ [nlc]]
    else [kvHead k (hashC :: s ++ [hashC]) ++ [nlc]]
  | (_, .vlist []) => []
  | (k, .vlist (h :: t)) =>
    (kvHead k (hashC :: h ++ [hashC]) ++ [nlc]) ::
      t.map (fun x => List.replicate 9 spc ++ hashC :: x ++ [hashC, nlc])

/-- `MdfFile.export`: the list of emitted lines. -/
def mdfExport (d : MDoc) : List Str := d.flatMap entryLines

/-- The new value handed to `MdfFile.set_parm` for one key: a number, a
sequence of numbers, a string, or a list of strings. -/
inductive SVal : Type
  | snum (q : ℚ)
  | sarr (l : List ℚ)
  | sstr (s : Str)
  | slst (l : List Str)
deriving DecidableEq

/-- Type-directed coercion of one `set_parm` assignment. A `none` result
models the exception Python raises (or a conversion outside the shapes the
codec handles). -/
def setStep (cur : MVal) (k : Str) (v : SVal) : Option MVal :=
  match cur with
  | .num _ =>
    match v with
    | .snum q => some (.num q)
    | .sstr s => (parseFloat s).map .num
    | _ => none
  | .arr _ =>
    match v with
    | .sarr l => some (.arr l)
    | _ => none
  | .mat _ =>
    match v with
    | .sarr l => some (.mat l)
    | _ => none
  | _ =>
    if k = "Runtxt".toList then
      match v with
      | .slst l => some (.vlist l)
      | .sstr s => some (.vstr s)
      | _ => none
    else
      match v with
      | .sstr s => some (.vstr s)
      | _ => none

/-- `MdfFile.set_parm`: assignments are applied strictly in order, mutating
the stored document; the pair returned is the document as left in memory and
the exception, if one was raised (`KeyError` for a missing key at
`type(self.data[key])`, a conversion error otherwise). -/
def setParmGo : MDoc → List (Str × SVal) → MDoc × Option Str
  | d, [] => (d, none)
  | d, (k, v) :: rest =>
    match lookupA d k with
    | none => (d, some "KeyError".toList)
    | some cur =>
      match setStep cur k v with
      | some newV => setParmGo (updA d k newV) rest
      | none => (d, some "TypeError".toList)

/-! ## Token-group scanners shared by DepFile and GrdFile -/

/-- One repetition of `\s+<tok>+\n?`: a whitespace run, a maximal token run,
and an optional newline (all runs are forced because the character classes
are disjoint, so the regex needs no backtracking). -/
def matchRep (tokf : Char → Bool) (s : Str) : Option (Str × Str) :=
  if (s.takeWhile isWS).isEmpty then none
  else
    let s1 := s.dropWhile isWS
    let t := s1.takeWhile tokf
    if t.isEmpty then none
    else
      match s1.drop t.length with
      | c :: r => if c = nlc then some (t, r) else some (t, c :: r)
      | [] => some (t, [])

/-- `k` repetitions of `\s+<tok>+\n?` in a row, returning the tokens and the
rest of the text. -/
def matchK (tokf : Char → Bool) : ℕ → Str → List Str → Option (List Str × Str)
  | 0, s, acc => some (acc.reverse, s)
  | k + 1, s, acc =>
    match matchRep tokf s with
    | some (t, r) => matchK tokf k r (t :: acc)
    | none => none

/-- `re.finditer` over `(\s+<tok>+\n?){k}`: scan left to right, emitting
each non-overlapping match and resuming after it. Fuel decreases once per
character examined, so `length + 1` always suffices. -/
def scanG (tokf : Char → Bool) (k : ℕ) : ℕ → Str → List (List Str)
  | 0, _ => []
  | fuel + 1, s =>
    match matchK tokf k s [] with
    | some (g, rest) => g :: scanG tokf k fuel rest
    | none =>
      match s with
      | [] => []
      | _ :: t => scanG tokf k fuel t

/-- `re.search`: try the pattern matcher `f` at every position, returning
the first success. -/
def scanFor {α : Type} (f : Str → Option α) : Str → Option α
  | [] => f []
  | c :: t =>
    match f (c :: t) with
    | some r => some r
    | none => scanFor f t

/-! ## DepFile (src/delft3d/DepFile.py) -/

/-- `DepFile.load_dep`: tokenize the whole text into groups of `m + 1`
tokens (`m` is the companion grid's column count), parse them as floats,
then drop the last row and the last column.  `none` models the exceptions
`np.float`/`np.delete` raise on malformed input. -/
def depLoad (text : Str) (m : ℕ) : Option (List (List ℚ)) :=
  let groups := scanG depTokChar (m + 1) (text.length + 1) text
  match mapOpt (mapOpt parseFloat) groups with
  | none => none
  | some [] => none
  | some rows => some (rows.dropLast.map List.dropLast)

/-- The depth sentinel used by `DepFile.export`. -/
def depSentinel : ℚ := -999

/-- The matrix `DepFile.export` builds before rendering: append one
sentinel row, then one sentinel column. -/
def depExportMat (data : List (List ℚ)) (cols : ℕ) : List (List ℚ) :=
  (data ++ [List.replicate cols depSentinel]).map (fun r => r ++ [depSentinel])

/-- Shape of a list-of-rows matrix: (rows, columns of the first row). -/
def shape2 {α : Type} (l : List (List α)) : ℕ × ℕ :=
  (l.length, (l.head?.map List.length).getD 0)

/-! ## GrdFile (src/delft3d/GrdFile.py, and the standalone src/GrdFile.py) -/

/-- Matcher for `Coordinate System = ([\w]+)` at the current position. -/
def fCS (s : Str) : Option Str :=
  if startsL "Coordinate System = ".toList s then
    let cap := (s.drop 20).takeWhile wordChar
    if cap.isEmpty then none else some cap
  else none

/-- Matcher for `Missing Value\s+=\s+([\w+-.]+)` at the current position. -/
def fMV (s : Str) : Option Str :=
  if startsL "Missing Value".toList s then
    let r := s.drop 13
    if (r.takeWhile isWS).isEmpty then none
    else
      match r.dropWhile isWS with
      | c :: r2 =>
        if c = eqC then
          if (r2.takeWhile isWS).isEmpty then none
          else
            let r3 := r2.dropWhile isWS
            let tok := r3.takeWhile mvClassChar
            if tok.isEmpty then none else some tok
        else none
      | [] => none
  else none

/-- Matcher for `\n\s+([\d]+)\s+([\d]+)\n` at the current position. -/
def fMN (s : Str) : Option (ℕ × ℕ) :=
  match s with
  | c :: r =>
    if c = nlc then
      if (r.takeWhile isWS).isEmpty then none
      else
        let r1 := r.dropWhile isWS
        let d1 := r1.takeWhile isDigitC
        if d1.isEmpty then none
        else
          let r2 := r1.drop d1.length
          if (r2.takeWhile isWS).isEmpty then none
          else
            let r3 := r2.dropWhile isWS
            let d2 := r3.takeWhile isDigitC
            if d2.isEmpty then none
            else
              match r3.drop d2.length with
              | c2 :: _ => if c2 = nlc then some (digitsVal d1, digitsVal d2) else none
              | [] => none
    else none
  | [] => none

/-- Matcher for ` ETA=\s+\d+(\s+[\d.Ee+]+\n?){m}` at the current position,
returning the `m` coordinate tokens (the `match[0].split()[2:]` of the
source) and the rest of the text. -/
def fETA (m : ℕ) (s : Str) : Option (List Str × Str) :=
  if startsL " ETA=".toList s then
    let s0 := s.drop 5
    if (s0.takeWhile isWS).isEmpty then none
    else
      let s1 := s0.dropWhile isWS
      let dg := s1.takeWhile isDigitC
      if dg.isEmpty then none
      else matchK grdTokChar m (s1.drop dg.length) []
  else none

/-- Scan loop of `re.finditer` over the ETA-row pattern. -/
def etaScanGo (m : ℕ) : ℕ → Str → List (List Str)
  | 0, _ => []
  | fuel + 1, s =>
    match fETA m s with
    | some (g, rest) => g :: etaScanGo m fuel rest
    | none =>
      match s with
      | [] => []
      | _ :: t => etaScanGo m fuel t

/-- `re.finditer` over the ETA-row pattern. -/
def etaScan (text : Str) (m : ℕ) : List (List Str) :=
  etaScanGo m (text.length + 1) text

/-- Everything `GrdFile.load_file` extracts from the text before the
missing-value default is applied: coordinate-system tag, raw missing-value
token, `M`, `N`, and the flattened X and Y coordinate arrays (the first `N`
ETA blocks are X, the rest are Y; both must reshape to `(N, M)`). -/
def loadGrdCore (text : Str) :
    Option (Option Str × Option Str × ℕ × ℕ × List ℚ × List ℚ) :=
  match scanFor fMN text with
  | none => none
  | some (m, n) =>
    let blocks := etaScan text m
    match mapOpt parseFloat (blocks.take n).flatten,
          mapOpt parseFloat (blocks.drop n).flatten with
    | some xs, some ys =>
      if xs.length = n * m ∧ ys.length = n * m then
        some (scanFor fCS text, scanFor fMV text, m, n, xs, ys)
      else none
    | _, _ => none

/-- The parsed grid document of the packaged codec
(`src/delft3d/GrdFile.py`): header fields, flattened row-major coordinate
arrays, and the masks produced by `np.ma.masked_equal`. -/
structure Grid where
  cs : Option Str
  mv : ℚ
  m : ℕ
  n : ℕ
  x : List ℚ
  y : List ℚ
  maskX : List Bool
  maskY : List Bool
deriving DecidableEq

/-- `GrdFile.load_file` of the packaged codec: a missing `Missing Value`
header defaults the sentinel to `0`, and masking is applied
unconditionally. -/
def loadGrd (text : Str) : Option Grid :=
  match loadGrdCore text with
  | none => none
  | some (cs, mvTok, m, n, xs, ys) =>
    match mvTok with
    | some t =>
      match parseFloat t with
      | none => none
      | some mv =>
        some ⟨cs, mv, m, n, xs, ys, xs.map (fun v => decide (v = mv)),
              ys.map (fun v => decide (v = mv))⟩
    | none =>
      some ⟨cs, 0, m, n, xs, ys, xs.map (fun v => decide (v = 0)),
            ys.map (fun v => decide (v = 0))⟩

/-- The parsed grid document of the standalone variant (`src/GrdFile.py`):
the sentinel is `None` when absent and masking is skipped entirely. -/
structure GridS where
  cs : Option Str
  mv : Option ℚ
  m : ℕ
  n : ℕ
  x : List ℚ
  y : List ℚ
  maskX : List Bool
  maskY : List Bool
deriving DecidableEq

/-- `GrdFile.load_file` of the standalone variant. -/
def loadGrdS (text : Str) : Option GridS :=
  match loadGrdCore text with
  | none => none
  | some (cs, mvTok, m, n, xs, ys) =>
    match mvTok with
    | some t =>
      match parseFloat t with
      | none => none
      | some mv =>
        some ⟨cs, some mv, m, n, xs, ys, xs.map (fun v => decide (v = mv)),
              ys.map (fun v => decide (v = mv))⟩
    | none =>
      some ⟨cs, none, m, n, xs, ys, xs.map (fun _ => false), ys.map (fun _ => false)⟩

/-- Split a flattened row-major array back into `rows of m` (the stored
`reshape(n, m)` view of the coordinates). -/
def chunksOf (m : ℕ) : ℕ → List ℚ → List (List ℚ)
  | 0, _ => []
  | _, [] => []
  | fuel + 1, l => l.take m :: chunksOf m fuel (l.drop m)

/-- Row view of a flattened array of `n` rows of `m`. -/
def rowsOf (l : List ℚ) (m : ℕ) : List (List ℚ) := chunksOf m (l.length + 1) l

/-- Value layout of one ETA row (`GrdFile.grid_writer` inner loop): the
first value gets a 3-space gutter, every fifth value closes the line, the
value after it starts a new line with a 13-space gutter. -/
def etaBody : List ℚ → ℕ → Str
  | [], _ => []
  | q :: rest, c =>
    let v := fmtSci 17 eUp q
    let piece :=
      if c = 0 then List.replicate 3 spc ++ v
      else if c % 5 = 4 then List.replicate 3 spc ++ v ++ [nlc]
      else if c % 5 = 0 then List.replicate 13 spc ++ v
      else List.replicate 3 spc ++ v
    let closing := if rest.isEmpty ∧ ¬ c % 5 = 4 then [nlc] else []
    piece ++ closing ++ etaBody rest (c + 1)

/-- One `" ETA=%5d"`-headed row string of `GrdFile.grid_writer`. -/
def etaLine (i : ℕ) (cor : List ℚ) : Str :=
  " ETA=".toList ++ padL (natStr (i + 1)) 5 ++ etaBody cor 0

/-- `GrdFile.grid_writer`: one string per coordinate row. -/
def gridWriter (rows : List (List ℚ)) : List Str :=
  rows.enum.map (fun p => etaLine p.1 p.2)

/-- `GrdFile.export`: header lines (the missing-value line only when the
sentinel is nonzero), the constant placeholder line, then the X and Y row
blocks. -/
def grdExport (g : Grid) : List Str :=
  ["Coordinate System = ".toList ++ (g.cs.getD "None".toList) ++ [nlc]] ++
  (if ¬ g.mv = 0 then ["Missing Value = ".toList ++ fmtSci 7 eLow g.mv ++ [nlc]] else []) ++
  [padL (natStr g.m) 8 ++ padL (natStr g.n) 8 ++ [nlc], " 0 0 0".toList ++ [nlc]] ++
  gridWriter (rowsOf g.x g.m) ++ gridWriter (rowsOf g.y g.m)

/-! ## GrdFile.get_nearest_grid -/

/-- Is `new` a strictly better (smaller) distance than `cur`, where `none`
is a masked entry (treated as the maximal fill value by
`MaskedArray.argmin`)? -/
def betterD : Option ℚ → Option ℚ → Bool
  | some a, some b => decide (a < b)
  | some _, none => true
  | none, _ => false

/-- Loop of `np.argmin` over a (masked) array: first index of the minimum,
masked entries filled with the maximal value, index `0` if everything is
masked. -/
def argminGo : List (Option ℚ) → ℕ → ℕ → Option ℚ → ℕ
  | [], _, bi, _ => bi
  | v :: t, i, bi, bv => if betterD v bv then argminGo t (i + 1) i v else argminGo t (i + 1) bi bv

/-- `np.argmin` over a masked array of distances. -/
def argminO : List (Option ℚ) → ℕ
  | [] => 0
  | v :: t => argminGo t 1 0 v

/-- The masked squared-distance array `(x - grd_x)**2 + (y - grd_y)**2` of
`get_nearest_grid` (the source takes `np.sqrt`, which is strictly monotone
on these nonnegative values, so the argmin is unchanged). -/
def dis2 (g : Grid) (qx qy : ℚ) : List (Option ℚ) :=
  ((g.x.zip g.y).zip (g.maskX.zip g.maskY)).map
    (fun p => if p.2.1 || p.2.2 then none
              else some ((qx - p.1.1) ^ 2 + (qy - p.1.2) ^ 2))

/-- The flat index chosen by the Cartesian path of `get_nearest_grid`. -/
def nearestFlat (g : Grid) (qx qy : ℚ) : ℕ := argminO (dis2 g qx qy)

/-- `GrdFile.get_nearest_grid`.  `T` is the external `pyproj` transformer
used by the spherical path; per its interface it returns plain (unmasked)
replacement matrices, so the mask is not applied to the transformed
coordinates.  The flat argmin index is unravelled over `(N, M)` and
returned as `(m, n)`. -/
def getNearestGrid (g : Grid) (T : ℚ → ℚ → ℚ × ℚ) (qx qy : ℚ) : ℕ × ℕ :=
  let idx :=
    if g.cs = some "Spherical".toList then
      argminO ((g.x.zip g.y).map
        (fun p => some ((qx - (T p.1 p.2).1) ^ 2 + (qy - (T p.1 p.2).2) ^ 2)))
    else nearestFlat g qx qy
  (idx % g.m, idx / g.m)

/-! ## TimeSeriesFile (src/delft3d/TimeSeriesFile.py) -/

/-- The `Parameter` object of the source: the stored value string, whether
the original token was quoted (`type == 'str'`), the preserved value width,
and the optional unit with its width. -/
structure Param where
  value : Str
  isStr : Bool
  vlen : ℕ
  unit : Option Str
  ulen : ℕ
deriving DecidableEq

/-- A header slot: either a single `Parameter` or the nested `parameter`
dict of named `Parameter`s. -/
inductive HVal : Type
  | prm (p : Param)
  | pdict (l : List (Str × Param))
deriving DecidableEq

abbrev Header := List (Str × HVal)

/-- One row of the stored time-series table: absolute timestamp (minutes),
relative time in minutes, and the two data columns. -/
structure TsRow where
  ts : ℚ
  rel : ℚ
  v1 : ℚ
  v2 : ℚ
deriving DecidableEq

/-- One `TimeSeries` block: header plus table. -/
structure Block where
  header : Header
  table : List TsRow
deriving DecidableEq

/-- A new header value passed to `set_header`: a plain value (already
stringified, as `str(new_parm)` does) or a nested `parameter` mapping. -/
inductive SArg : Type
  | prim (s : Str)
  | pmap (l : List (Str × Str))
deriving DecidableEq

/-- Update the nested parameter dict for one `set_header` entry: each named
parameter must exist; `unit=True` updates units, otherwise values. -/
def updPD (pd : List (Str × Param)) (u : Bool) : List (Str × Str) → Option (List (Str × Param))
  | [] => some pd
  | (k2, s) :: rest =>
    match lookupA pd k2 with
    | none => none
    | some p =>
      let p2 := if u then { p with unit := some s } else { p with value := s }
      updPD (updA pd k2 p2) u rest

/-- One key of `TimeSeries.set_header`: regular headers and the two
guarded keys update the `Parameter` value (the guarded keys additionally
print the advisory); `parameter` updates the nested dict.  The advisory
count is returned alongside. -/
def setH1 (h : Header) (k : Str) (a : SArg) (u : Bool) : Option (Header × ℕ) :=
  if k = "parameter".toList then
    match a, lookupA h k with
    | .pmap entries, some (.pdict pd) =>
      (updPD pd u entries).map (fun pd2 => (updA h k (.pdict pd2), 0))
    | _, _ => none
  else
    match a, lookupA h k with
    | .prim s, some (.prm p) =>
      some (updA h k (.prm { p with value := s }),
        if k = "reference-time".toList ∨ k = "records-in-table".toList then 1 else 0)
    | _, _ => none

/-- `TimeSeries.set_header`: apply each entry in order, accumulating the
number of advisories printed. -/
def setHeader (h : Header) (data : List (Str × SArg)) (u : Bool) : Option (Header × ℕ) :=
  match data with
  | [] => some (h, 0)
  | (k, a) :: rest =>
    match setH1 h k a u with
    | none => none
    | some (h2, c) =>
      match setHeader h2 rest u with
      | none => none
      | some (h3, c2) => some (h3, c + c2)

/-- `TimeSeriesFile.set_header` on one block: only the header is touched. -/
def setHeaderB (b : Block) (data : List (Str × SArg)) (u : Bool) : Option (Block × ℕ) :=
  (setHeader b.header data u).map (fun p => ({ header := p.1, table := b.table }, p.2))

/-- A calendar date (proleptic Gregorian, as `pd.to_datetime` uses). -/
structure Date where
  y : ℕ
  mo : ℕ
  d : ℕ
deriving DecidableEq

def isLeap (y : ℕ) : Bool := y % 4 = 0 && (¬ y % 100 = 0 || y % 400 = 0)

/-- Cumulative days before each month (non-leap). -/
def cumMonth : List ℕ := [0, 31, 59, 90, 120, 151, 181, 212, 243, 273, 304, 334]

/-- Days from 0001-01-01 to the given date. -/
def daysFromEpoch (dt : Date) : ℕ :=
  let py := dt.y - 1
  365 * py + py / 4 - py / 100 + py / 400 +
    (cumMonth.getD (dt.mo - 1) 0) + (if 2 < dt.mo && isLeap dt.y then 1 else 0) + (dt.d - 1)

/-- A date as minutes on the timestamp axis. -/
def dateMinutes (dt : Date) : ℚ := 1440 * (daysFromEpoch dt : ℚ)

/-- `strftime("%Y%m%d")`. -/
def yyyymmdd (dt : Date) : Str := padZ (natStr dt.y) 4 ++ padZ (natStr dt.mo) 2 ++ padZ (natStr dt.d) 2

/-- Build one table row of `set_time_series`: absolute timestamp, relative
minutes from the reference time, two data values. -/
def mkRow (refMin : ℚ) (t a b : ℚ) : TsRow := ⟨t, t - refMin, a, b⟩

/-- `TimeSeries.set_time_series`: the caller-supplied series share one
timestamp index (`pd.concat` alignment); the table is rebuilt wholesale,
relative minutes are recomputed from the new reference time, and
`records-in-table` / `reference-time` are updated through `set_header`
(which prints its advisory). -/
def setTimeSeries (b : Block) (rd : Date) (idx d1 d2 : List ℚ) : Option (Block × ℕ) :=
  if d1.length = idx.length ∧ d2.length = idx.length then
    let refMin := dateMinutes rd
    let rows := (idx.zip (d1.zip d2)).map (fun p => mkRow refMin p.1 p.2.1 p.2.2)
    match setHeader b.header
        [("records-in-table".toList, .prim (natStr idx.length)),
         ("reference-time".toList, .prim (yyyymmdd rd))] false with
    | none => none
    | some (h2, adv) => some ({ header := h2, table := rows }, adv)
  else none

/-- The stored value string of a single-`Parameter` header field. -/
def headerVal (h : Header) (k : Str) : Option Str :=
  match lookupA h k with
  | some (.prm p) => some p.value
  | _ => none

/-! ## Well-formedness of an mdf document (canonical-export round trip) -/

/-- A rendered numeric token that survives the parse: made of value-class
characters, free of `#`, `[` and whitespace, and re-parsing it recovers the
stored rational (for allow-listed integer keys this forces the value to be
integral; in general it restricts to values exactly representable in the
emitted notation, the counterpart of binary floats being printed and
re-read exactly). -/
def goodNum (k : Str) (q : ℚ) : Bool :=
  let t := numTok k q
  ¬ t.isEmpty && t.all valClassChar &&
    ¬ t.any (fun c => c = hashC || c = lbrkC || isWS c) && parseFloat t = some q

/-- Well-formedness of one stored mdf value for key `k`: the shapes the
exporter emits unambiguously, so that parsing the emitted lines recovers
the same store. -/
def wfVal (k : Str) : MVal → Bool
  | .num q => goodNum k q
  | .arr l => decide (2 ≤ l.length) && l.all (goodNum k)
  | .mat l => decide (2 ≤ l.length) && l.all (goodNum k)
  | .vstr s =>
    s.all valClassChar &&
      (if hasChar s lbrkC then
        match s with
        | [] => false
        | c :: _ => ¬ isWS c
      else ¬ hasChar s hashC)
  | .vlist l =>
    decide (2 ≤ l.length) &&
      l.all (fun x => x.all valClassChar && ¬ hasChar x hashC && ¬ hasChar x lbrkC)

/-- A well-formed mdf key: nonempty, word characters only, and not the
discarded `Commnt` field. -/
def wfKey (k : Str) : Bool := ¬ k.isEmpty && k.all wordChar && ¬ k = "Commnt".toList

/-- Well-formed mdf document: distinct well-formed keys, well-formed
values. -/
def wfMdf (d : MDoc) : Bool :=
  d.all (fun e => wfKey e.1 && wfVal e.1 e.2) && decide (d.map Prod.fst).Nodup

/-! ## Concrete fixtures used by the witnesses and counterexamples -/

/-- A well-formed one-line parameter file whose numeric notation is not the
exporter's canonical one. -/
def mdfCxLine : Str := "Ag = 10".toList ++ [nlc]

/-- A canonical-form witness document covering every stored value shape. -/
def mdfWdoc : MDoc :=
  [("Ag".toList, .num 10), ("MNKmax".toList, .mat [1, 2, 3]),
   ("Runtxt".toList, .vlist ["ab".toList, "cd".toList]),
   ("Filcco".toList, .vstr "river.grd".toList),
   ("Rettis".toList, .arr [1, 1]),
   ("Flncdf".toList, .vstr "map[0]".toList)]

/-- Stored documents and argument lists for the `set_parm` scenarios. -/
def parmDoc : MDoc := [("Ag".toList, .num 1), ("Dt".toList, .num 3)]

def parmArgsBad : List (Str × SVal) :=
  [("Ag".toList, .snum 10), ("Bogus".toList, .snum 1)]

/-- A document whose `MNKmax` was parsed from a single-line array. -/
def mnkDoc1 : MDoc := [("MNKmax".toList, .arr [6, 6, 6])]

/-- A document whose `MNKmax` was parsed from a multi-line column array. -/
def mnkDoc2 : MDoc := [("MNKmax".toList, .mat [6, 6, 6])]

def mnkArgs : List (Str × SVal) := [("MNKmax".toList, .sarr [1, 2, 3])]

/-- The three lines the specification scenario expects for `MNKmax`. -/
def mnkLines : List Str :=
  ["MNKmax = 1".toList ++ [nlc],
   "          2".toList ++ [nlc],
   "          3".toList ++ [nlc]]

/-- A grid file with no `Missing Value` header and a zero coordinate
cell. -/
def txtNoMV : Str :=
  "Coordinate System = Cartesian".toList ++ [nlc] ++
  "       2       1".toList ++ [nlc] ++ " 0 0 0".toList ++ [nlc] ++
  " ETA=    1   0.00000000000000000E+00   1.00000000000000000E+00".toList ++ [nlc] ++
  " ETA=    1   2.00000000000000000E+00   3.00000000000000000E+00".toList ++ [nlc]

/-- A grid file that explicitly declares a zero missing value. -/
def txtZeroMV : Str :=
  "Coordinate System = Cartesian".toList ++ [nlc] ++
  "Missing Value = 0.0000000e+00".toList ++ [nlc] ++
  "       1       1".toList ++ [nlc] ++ " 0 0 0".toList ++ [nlc] ++
  " ETA=    1   1.00000000000000000E+00".toList ++ [nlc] ++
  " ETA=    1   2.00000000000000000E+00".toList ++ [nlc]

/-- A spherical grid file whose first node carries the declared sentinel
value. -/
def txtSph : Str :=
  "Coordinate System = Spherical".toList ++ [nlc] ++
  "Missing Value = 9.9900000e+02".toList ++ [nlc] ++
  "       2       1".toList ++ [nlc] ++ " 0 0 0".toList ++ [nlc] ++
  " ETA=    1   9.99000000000000000E+02   5.00000000000000000E+00".toList ++ [nlc] ++
  " ETA=    1   9.99000000000000000E+02   5.00000000000000000E+00".toList ++ [nlc]

/-- The identity transformer, one legitimate instance of the external
projection collaborator. -/
def Tid : ℚ → ℚ → ℚ × ℚ := fun a b => (a, b)

/-- A companion depth file for a grid with `(M, N) = (2, 3)`: three groups
of `M + 1 = 3` tokens. -/
def depTxt : Str :=
  "   1.0 2.0 3.0".toList ++ [nlc] ++ "   4.0 5.0 6.0".toList ++ [nlc] ++
  "   7.0 8.0 9.0".toList ++ [nlc]

/-- A 245-row, 7-column Cartesian witness grid whose node `(row, col)`
carries coordinates `(col, row)`; nothing is masked. -/
def gridW : Grid :=
  ⟨some "Cartesian".toList, -999, 7, 245,
   ((List.range 245).map (fun _ => ([0, 1, 2, 3, 4, 5, 6] : List ℚ))).flatten,
   ((List.range 245).map (fun i => List.replicate 7 (i : ℚ))).flatten,
   List.replicate 1715 false, List.replicate 1715 false⟩

/-- A small Cartesian grid with a masked first cell, for the masking
witness. -/
def gridM : Grid :=
  ⟨some "Cartesian".toList, -999, 2, 1, [-999, 5], [-999, 5],
   [true, false], [true, false]⟩

/-- Time-series fixtures: a parsed block with the mandatory header
fields. -/
def tsRefParam : Param := ⟨"20200101".toList, false, 8, none, 0⟩

def tsHeader : Header :=
  [("location".toList, .prm ⟨"(1,1)..(1,1)".toList, true, 20, none, 0⟩),
   ("reference-time".toList, .prm tsRefParam),
   ("parameter".toList, .pdict
     [("time".toList, ⟨"time".toList, true, 20, some "min".toList, 10⟩)]),
   ("records-in-table".toList, .prm ⟨"2".toList, false, 5, none, 0⟩)]

def tsBlock : Block := ⟨tsHeader, [⟨0, 0, 1, 2⟩, ⟨10, 10, 3, 4⟩]⟩

/-- The block produced by the witness call to `set_time_series`. -/
def tsBlockAfter : Block :=
  ⟨updA (updA tsHeader "records-in-table".toList (.prm ⟨"2".toList, false, 5, none, 0⟩))
        "reference-time".toList (.prm ⟨"20200415".toList, false, 8, none, 0⟩),
   [⟨1062000000, -41760, 100, 200⟩, ⟨1062000010, -41750, 100, 200⟩]⟩

/-- The packaged-codec parse of `txtNoMV`. -/
def grdNoMV : Grid :=
  ⟨some "Cartesian".toList, 0, 2, 1, [0, 1], [2, 3], [true, false], [false, false]⟩

/-- The standalone-variant parse of `txtNoMV`. -/
def grdNoMVS : GridS :=
  ⟨some "Cartesian".toList, none, 2, 1, [0, 1], [2, 3], [false, false], [false, false]⟩

/-- The packaged-codec parse of `txtZeroMV` (explicit zero missing value). -/
def grdZero : Grid := ⟨some "Cartesian".toList, 0, 1, 1, [1], [2], [false], [false]⟩

/-- The packaged-codec parse of `txtSph` (spherical grid, sentinel 999 on
the first node). -/
def grdSph : Grid :=
  ⟨some "Spherical".toList, 999, 2, 1, [999, 5], [999, 5], [true, false], [true, false]⟩

/-! ## General lemmas -/

theorem mapOpt_length {f : α → Option β} : ∀ {l : List α} {l2 : List β},
    mapOpt f l = some l2 → l2.length = l.length := by
  intro l
  induction l with
  | nil => intro l2 h; simp [mapOpt] at h; simp [← h]
  | cons a t ih =>
    intro l2 h
    simp only [mapOpt] at h
    cases hf : f a with
    | none => rw [hf] at h; simp at h
    | some b =>
      rw [hf] at h
      cases hm : mapOpt f t with
      | none => rw [hm] at h; simp at h
      | some bs =>
        rw [hm] at h
        simp at h
        subst h
        simp [ih hm]

theorem mapOpt_mem {f : α → Option β} : ∀ {l : List α} {l2 : List β},
    mapOpt f l = some l2 → ∀ b ∈ l2, ∃ a ∈ l, f a = some b := by
  intro l
  induction l with
  | nil => intro l2 h b hb; simp [mapOpt] at h; subst h; simp at hb
  | cons a t ih =>
    intro l2 h b hb
    simp only [mapOpt] at h
    cases hf : f a with
    | none => rw [hf] at h; simp at h
    | some b0 =>
      rw [hf] at h
      cases hm : mapOpt f t with
      | none => rw [hm] at h; simp at h
      | some bs =>
        rw [hm] at h
        simp at h
        subst h
        rcases List.mem_cons.mp hb with hb | hb
        · exact ⟨a, List.mem_cons_self a t, by rw [hf, hb]⟩
        · rcases ih hm b hb with ⟨a2, ha2, hfa2⟩
          exact ⟨a2, List.mem_cons_of_mem a ha2, hfa2⟩

theorem matchK_len {tokf : Char → Bool} : ∀ {k : ℕ} {s : Str} {acc : List Str} {g : List Str}
    {r : Str}, matchK tokf k s acc = some (g, r) → g.length = acc.length + k := by
  intro k
  induction k with
  | zero => intro s acc g r h; simp [matchK] at h; simp [← h.1]
  | succ k ih =>
    intro s acc g r h
    simp only [matchK] at h
    cases hm : matchRep tokf s with
    | none => rw [hm] at h; simp at h
    | some p =>
      rw [hm] at h
      have := ih h
      simp at this
      omega

theorem scanG_mem_len {tokf : Char → Bool} {k : ℕ} : ∀ {fuel : ℕ} {s : Str} {g : List Str},
    g ∈ scanG tokf k fuel s → g.length = k := by
  intro fuel
  induction fuel with
  | zero => intro s g h; simp [scanG] at h
  | succ fuel ih =>
    intro s g h
    simp only [scanG] at h
    cases hm : matchK tokf k s [] with
    | some p =>
      rw [hm] at h
      rcases List.mem_cons.mp h with h | h
      · subst h; simpa using matchK_len hm
      · exact ih h
    | none =>
      rw [hm] at h
      cases s with
      | nil => simp at h
      | cons c t => exact ih h

/-! ## C2: depth-file shape invariants -/

/-- C2 (counterexample): for a companion grid with `(M, N) = (2, 3)` and a
companion depth file of three groups of `M + 1 = 3` tokens, parsing yields
the shape `(2, 2)`, not the claimed `(N - 1) × (M - 1) = (2, 1)`: the parse
drops one trailing row and one trailing column from the `3 × 3` token
matrix, leaving `M` (not `M - 1`) columns. -/
theorem C2_dep_shape_counterexample :
    (depLoad depTxt 2).map shape2 = some (2, 2) ∧ ¬ ((2, 2) : ℕ × ℕ) = (3 - 1, 2 - 1) := by
  constructor
  · decide
  · decide

/-- C2 (amended): parsing a depth file against a companion grid with `M`
columns yields `(G - 1) × M` where `G` is the number of `(M + 1)`-token
groups found (so `(N - 1) × M`, not `(N - 1) × (M - 1)`, for an `N`-group
companion file); exporting an `r × c` depth matrix yields `(r + 1) × (c + 1)`
whose trailing row and trailing column consist entirely of the sentinel
`-999`. -/
theorem C2_dep_shapes (text : Str) (m : ℕ) (rows : List (List ℚ))
    (h : depLoad text m = some rows)
    (data : List (List ℚ)) (c : ℕ) (hc : ∀ row ∈ data, row.length = c) :
    (rows.length = (scanG depTokChar (m + 1) (text.length + 1) text).length - 1 ∧
      ∀ row ∈ rows, row.length = m) ∧
    ((depExportMat data c).length = data.length + 1 ∧
      (∀ row ∈ depExportMat data c, row.length = c + 1) ∧
      (depExportMat data c).getLast? = some (List.replicate (c + 1) depSentinel) ∧
      ∀ row ∈ depExportMat data c, row.getLast? = some depSentinel) := by
  constructor
  · -- parse shape
    simp only [depLoad] at h
    cases hm : mapOpt (mapOpt parseFloat) (scanG depTokChar (m + 1) (text.length + 1) text) with
    | none => rw [hm] at h; simp at h
    | some rows0 =>
      rw [hm] at h
      cases rows0 with
      | nil => simp at h
      | cons r0 rest0 =>
        simp only [Option.some.injEq] at h
        subst h
        constructor
        · rw [List.length_map, List.length_dropLast, mapOpt_length hm]
        · intro row hrow
          rcases List.mem_map.mp hrow with ⟨row0, hrow0, hrw⟩
          have hmem : row0 ∈ r0 :: rest0 := List.dropLast_subset _ hrow0
          rcases mapOpt_mem hm row0 hmem with ⟨g, hg, hpg⟩
          have h1 : row0.length = g.length := by
            have := mapOpt_length hpg; omega
          have h2 : g.length = m + 1 := scanG_mem_len hg
          rw [← hrw, List.length_dropLast, h1, h2]
          omega
  · -- export shape and sentinel border
    refine ⟨?_, ?_, ?_, ?_⟩
    · simp [depExportMat]
    · intro row hrow
      rcases List.mem_map.mp hrow with ⟨row0, hrow0, hrw⟩
      rcases List.mem_append.mp hrow0 with h0 | h0
      · rw [← hrw]; simp [hc row0 h0]
      · simp at h0
        rw [← hrw, h0]
        simp
    · have hl : (depExportMat data c).getLast? =
          (List.replicate c depSentinel ++ [depSentinel] : List ℚ) := by
        simp only [depExportMat]
        rw [List.getLast?_map]
        simp
      rw [hl, List.replicate_succ']
    · intro row hrow
      rcases List.mem_map.mp hrow with ⟨row0, _, hrw⟩
      rw [← hrw]
      simp

/-- C2 (witness): the shape theorem instantiated at the concrete companion
file `depTxt` with `M = 2`. -/
theorem C2_dep_shapes_witness :
    depLoad depTxt 2 = some [[1, 2], [4, 5]] ∧
    ((([[1, 2], [4, 5]] : List (List ℚ)).length =
        (scanG depTokChar 3 (depTxt.length + 1) depTxt).length - 1 ∧
      ∀ row ∈ ([[1, 2], [4, 5]] : List (List ℚ)), row.length = 2) ∧
     ((depExportMat [[1, 2], [4, 5]] 2).length = ([[1, 2], [4, 5]] : List (List ℚ)).length + 1 ∧
      (∀ row ∈ depExportMat [[1, 2], [4, 5]] 2, row.length = 3) ∧
      (depExportMat [[1, 2], [4, 5]] 2).getLast? = some (List.replicate 3 depSentinel) ∧
      ∀ row ∈ depExportMat [[1, 2], [4, 5]] 2, row.getLast? = some depSentinel)) :=
  ⟨by decide, C2_dep_shapes depTxt 2 [[1, 2], [4, 5]] (by decide) [[1, 2], [4, 5]] 2 (by decide)⟩

/-! ## Association-list lemmas -/

theorem lookupA_updA_self {α : Type} : ∀ (d : List (Str × α)) (k : Str) (v : α),
    lookupA (updA d k v) k = some v := by
  intro d k v
  induction d with
  | nil => simp [updA, lookupA]
  | cons e t ih =>
    by_cases h : e.1 = k
    · simp [updA, lookupA, h]
    · simp only [updA]
      rw [if_neg ?_]
      · simp only [lookupA]
        rw [if_neg h]
        exact ih
      · exact h

theorem lookupA_updA_other {α : Type} : ∀ (d : List (Str × α)) (k k2 : Str) (v : α),
    ¬ k2 = k → lookupA (updA d k v) k2 = lookupA d k2 := by
  intro d k k2 v hne
  induction d with
  | nil =>
    simp only [updA, lookupA]
    rw [if_neg (fun h => hne h.symm)]
  | cons e t ih =>
    by_cases h : e.1 = k
    · simp only [updA]
      rw [if_pos h]
      simp only [lookupA]
      by_cases h2 : e.1 = k2
      · exact absurd (h2.symm.trans h) hne
      · rw [if_neg h2, if_neg h2]
    · simp only [updA]
      rw [if_neg h]
      simp only [lookupA]
      by_cases h2 : e.1 = k2
      · rw [if_pos h2, if_pos h2]
      · rw [if_neg h2, if_neg h2]
        exact ih

/-! ## C4: failed mutations and partial application -/

/-- C4 (counterexample): `MdfFile.set_parm({'Ag': 10, 'Bogus': 1})` on a
document holding `Ag` and `Dt` raises `KeyError` on the unknown key
`Bogus`, yet the stored document has already been modified: `Ag` now holds
`10.0` instead of `1.0`.  A failed `set_*` call does not leave the document
unchanged. -/
theorem C4_set_parm_counterexample :
    (setParmGo parmDoc parmArgsBad).2 = some "KeyError".toList ∧
    ¬ (setParmGo parmDoc parmArgsBad).1 = parmDoc ∧
    lookupA (setParmGo parmDoc parmArgsBad).1 "Ag".toList = some (.num 10) := by
  refine ⟨by decide, by decide, by decide⟩

/-- C4 (amended): `set_parm` applies its assignments strictly in order, so
when a call fails the stored document is exactly the document obtained by
successfully applying the entries processed before the failing one —
entries from the failing one onwards are untouched, but earlier entries
remain modified (the document is unchanged only when the first processed
entry fails). -/
theorem C4_set_parm_partial (d : MDoc) (args : List (Str × SVal))
    (h : (setParmGo d args).2.isSome = true) :
    ∃ i, i < args.length ∧ (setParmGo d (args.take i)).2 = none ∧
      (setParmGo d args).1 = (setParmGo d (args.take i)).1 := by
  induction args generalizing d with
  | nil => simp [setParmGo] at h
  | cons e rest ih =>
    cases hl : lookupA d e.1 with
    | none =>
      refine ⟨0, by simp, by simp [setParmGo], ?_⟩
      simp [setParmGo, hl]
    | some cur =>
      cases hs : setStep cur e.1 e.2 with
      | none =>
        refine ⟨0, by simp, by simp [setParmGo], ?_⟩
        simp [setParmGo, hl, hs]
      | some nv =>
        have hgo : setParmGo d (e :: rest) = setParmGo (updA d e.1 nv) rest := by
          simp [setParmGo, hl, hs]
        rw [hgo] at h
        rcases ih (updA d e.1 nv) h with ⟨i, hi, hnone, heq⟩
        refine ⟨i + 1, by simpa using hi, ?_, ?_⟩
        · simpa [setParmGo, hl, hs] using hnone
        · rw [hgo, heq]
          simp [setParmGo, hl, hs]

/-- C4 (witness): the partial-application theorem instantiated at the
concrete failing call of the counterexample: the failure happens at index
1, so the final document equals the one-entry prefix applied. -/
theorem C4_set_parm_partial_witness :
    (setParmGo parmDoc parmArgsBad).2.isSome = true ∧
    ∃ i, i < parmArgsBad.length ∧ (setParmGo parmDoc (parmArgsBad.take i)).2 = none ∧
      (setParmGo parmDoc parmArgsBad).1 = (setParmGo parmDoc (parmArgsBad.take i)).1 :=
  ⟨by decide, C4_set_parm_partial parmDoc parmArgsBad (by decide)⟩

/-! ## C7: the MNKmax scenario -/

/-- C7 (counterexample): on a document whose `MNKmax` entry was parsed from
a single-line array (the usual mdf layout), `set_parm({'MNKmax': [1,2,3]})`
stores a 1-D array again, and export renders the single line
`"MNKmax = 1 2 3\n"`, not the three claimed lines. -/
theorem C7_mnkmax_counterexample :
    (setParmGo mnkDoc1 mnkArgs).2 = none ∧
    mdfExport (setParmGo mnkDoc1 mnkArgs).1 = ["MNKmax = 1 2 3".toList ++ [nlc]] ∧
    ¬ mdfExport (setParmGo mnkDoc1 mnkArgs).1 = mnkLines := by
  refine ⟨by decide, by decide, by decide⟩

/-- C7 (amended): when the stored `MNKmax` entry is a multi-line column
array, `set_parm` with `[1,2,3]` stores the column `[1,2,3]` and export
renders exactly the three consecutive lines `"MNKmax = 1\n"`,
`"          2\n"`, `"          3\n"` for that key. -/
theorem C7_mnkmax_lines (d : MDoc) (l0 : List ℚ)
    (h : lookupA d "MNKmax".toList = some (.mat l0)) :
    (setParmGo d mnkArgs).2 = none ∧
    lookupA (setParmGo d mnkArgs).1 "MNKmax".toList = some (.mat [1, 2, 3]) ∧
    entryLines ("MNKmax".toList, .mat [1, 2, 3]) = mnkLines := by
  have hstep : setStep (.mat l0) "MNKmax".toList (.sarr [1, 2, 3]) = some (.mat [1, 2, 3]) := by
    simp [setStep]
  have hrun : setParmGo d mnkArgs = (updA d "MNKmax".toList (.mat [1, 2, 3]), none) := by
    simp only [mnkArgs, setParmGo, h, hstep]
  refine ⟨by rw [hrun], ?_, by decide⟩
  rw [hrun]
  exact lookupA_updA_self d "MNKmax".toList (.mat [1, 2, 3])

/-- C7 (witness): the amended theorem instantiated at a document whose
`MNKmax` is the column `[6,6,6]`. -/
theorem C7_mnkmax_lines_witness :
    lookupA mnkDoc2 "MNKmax".toList = some (.mat [6, 6, 6]) ∧
    ((setParmGo mnkDoc2 mnkArgs).2 = none ∧
     lookupA (setParmGo mnkDoc2 mnkArgs).1 "MNKmax".toList = some (.mat [1, 2, 3]) ∧
     entryLines ("MNKmax".toList, .mat [1, 2, 3]) = mnkLines) :=
  ⟨by decide, C7_mnkmax_lines mnkDoc2 [6, 6, 6] (by decide)⟩

/-! ## set_header helper lemmas -/

theorem setH1_special (h : Header) (k s : Str) (p : Param) (u : Bool)
    (hkp : ¬ k = "parameter".toList)
    (hk : k = "reference-time".toList ∨ k = "records-in-table".toList)
    (hp : lookupA h k = some (.prm p)) :
    setH1 h k (.prim s) u = some (updA h k (.prm { p with value := s }), 1) := by
  simp only [setH1, if_neg hkp, hp, if_pos hk]

theorem setH1_prim_inv (h : Header) (k s : Str) (u : Bool) (h2 : Header) (c : ℕ)
    (hkp : ¬ k = "parameter".toList)
    (hs : setH1 h k (.prim s) u = some (h2, c)) :
    ∃ p, lookupA h k = some (.prm p) ∧ h2 = updA h k (.prm { p with value := s }) := by
  simp only [setH1, if_neg hkp] at hs
  cases hl : lookupA h k with
  | none => rw [hl] at hs; simp at hs
  | some hv =>
    cases hv with
    | pdict pd => rw [hl] at hs; simp at hs
    | prm p =>
      rw [hl] at hs
      simp only [Option.some.injEq, Prod.mk.injEq] at hs
      exact ⟨p, rfl, hs.1.symm⟩

/-! ## C6: set_header frame conditions -/

/-- C6 (confirmed): calling `set_header` with `reference-time` or
`records-in-table` updates exactly that header field's value (its other
attributes and every other header entry are untouched), emits one advisory,
and leaves the block's stored time-series table completely unchanged. -/
theorem C6_set_header_frame (b : Block) (k : Str) (s : Str) (p : Param) (u : Bool)
    (hk : k = "reference-time".toList ∨ k = "records-in-table".toList)
    (hp : lookupA b.header k = some (.prm p)) :
    ∃ b2, setHeaderB b [(k, .prim s)] u = some (b2, 1) ∧
      b2.table = b.table ∧
      lookupA b2.header k = some (.prm { p with value := s }) ∧
      ∀ k2, ¬ k2 = k → lookupA b2.header k2 = lookupA b.header k2 := by
  have hkp : ¬ k = "parameter".toList := by
    rcases hk with hk | hk <;> subst hk <;> decide
  have h1 := setH1_special b.header k s p u hkp hk hp
  refine ⟨⟨updA b.header k (.prm { p with value := s }), b.table⟩, ?_, rfl, ?_, ?_⟩
  · simp only [setHeaderB, setHeader, h1, Option.map_some]
    rfl
  · exact lookupA_updA_self b.header k (.prm { p with value := s })
  · intro k2 hne
    exact lookupA_updA_other b.header k k2 _ hne

/-- C6 (witness): the frame theorem at the concrete block `tsBlock`,
updating `reference-time`. -/
theorem C6_set_header_frame_witness :
    lookupA tsBlock.header "reference-time".toList = some (.prm tsRefParam) ∧
    ∃ b2, setHeaderB tsBlock [("reference-time".toList, .prim "20200120".toList)] false =
        some (b2, 1) ∧
      b2.table = tsBlock.table ∧
      lookupA b2.header "reference-time".toList =
        some (.prm { tsRefParam with value := "20200120".toList }) ∧
      ∀ k2, ¬ k2 = "reference-time".toList →
        lookupA b2.header k2 = lookupA tsBlock.header k2 :=
  ⟨by decide,
   C6_set_header_frame tsBlock "reference-time".toList "20200120".toList tsRefParam false
     (Or.inl rfl) (by decide)⟩

/-! ## C3: set_time_series invariants -/

/-- C3 (confirmed): after every successful `set_time_series`, the
`records-in-table` header value equals `str(len(table))`, the stored
table's first (relative-time) column equals `timestamp - new reference
time` in minutes for each row, and the `reference-time` header value is the
new reference time rendered as `%Y%m%d`. -/
theorem C3_set_time_series (b : Block) (rd : Date) (idx d1 d2 : List ℚ) (b2 : Block) (adv : ℕ)
    (h : setTimeSeries b rd idx d1 d2 = some (b2, adv)) :
    headerVal b2.header "records-in-table".toList = some (natStr b2.table.length) ∧
    b2.table.map TsRow.rel = idx.map (fun t => t - dateMinutes rd) ∧
    headerVal b2.header "reference-time".toList = some (yyyymmdd rd) := by
  simp only [setTimeSeries] at h
  by_cases hlen : d1.length = idx.length ∧ d2.length = idx.length
  · rw [if_pos hlen] at h
    cases hsh : setHeader b.header
        [("records-in-table".toList, .prim (natStr idx.length)),
         ("reference-time".toList, .prim (yyyymmdd rd))] false with
    | none => rw [hsh] at h; simp at h
    | some pr =>
      obtain ⟨h3, adv3⟩ := pr
      rw [hsh] at h
      simp only [Option.some.injEq, Prod.mk.injEq] at h
      obtain ⟨hb2, -⟩ := h
      simp only [setHeader] at hsh
      cases hs1 : setH1 b.header "records-in-table".toList (.prim (natStr idx.length)) false with
      | none => rw [hs1] at hsh; simp at hsh
      | some pr1 =>
        obtain ⟨h2, c1⟩ := pr1
        rw [hs1] at hsh
        dsimp only at hsh
        cases hs2 : setH1 h2 "reference-time".toList (.prim (yyyymmdd rd)) false with
        | none => rw [hs2] at hsh; simp at hsh
        | some pr2 =>
          obtain ⟨h4, c2⟩ := pr2
          rw [hs2] at hsh
          simp only [Option.some.injEq, Prod.mk.injEq] at hsh
          obtain ⟨hh4, -⟩ := hsh
          obtain ⟨p1, hl1, hup1⟩ := setH1_prim_inv _ _ _ _ _ _ (by decide) hs1
          obtain ⟨p2, hl2, hup2⟩ := setH1_prim_inv _ _ _ _ _ _ (by decide) hs2
          have hne : ¬ ("records-in-table".toList : Str) = "reference-time".toList := by decide
          have htlen : b2.table.length = idx.length := by
            rw [← hb2]
            simp only [List.length_map, List.length_zip]
            omega
          have htv : b2.table = (idx.zip (d1.zip d2)).map
              (fun p => mkRow (dateMinutes rd) p.1 p.2.1 p.2.2) := by
            rw [← hb2]
          refine ⟨?_, ?_, ?_⟩
          · simp only [headerVal]
            rw [show b2.header = h4 from by rw [← hb2]; exact hh4.symm]
            rw [hup2, lookupA_updA_other _ _ _ _ hne, hup1, lookupA_updA_self, htlen]
          · rw [htv, List.map_map]
            have hcomp : (TsRow.rel ∘ fun p : ℚ × ℚ × ℚ => mkRow (dateMinutes rd) p.1 p.2.1 p.2.2)
                = (fun t : ℚ => t - dateMinutes rd) ∘ Prod.fst := by
              funext p
              rfl
            rw [hcomp, ← List.map_map]
            congr 1
            exact List.map_fst_zip idx (d1.zip d2) (by simp only [List.length_zip]; omega)
          · simp only [headerVal]
            rw [show b2.header = h4 from by rw [← hb2]; exact hh4.symm]
            rw [hup2, lookupA_updA_self]
  · rw [if_neg hlen] at h; simp at h

/-- C3 (witness): `set_time_series` on the concrete block `tsBlock` with
reference date 2020-04-15 and a two-row aligned index. -/
theorem C3_set_time_series_witness :
    setTimeSeries tsBlock ⟨2020, 4, 15⟩ [1062000000, 1062000010] [100, 100] [200, 200] =
      some (tsBlockAfter, 2) ∧
    (headerVal tsBlockAfter.header "records-in-table".toList =
        some (natStr tsBlockAfter.table.length) ∧
      tsBlockAfter.table.map TsRow.rel =
        ([1062000000, 1062000010] : List ℚ).map (fun t => t - dateMinutes ⟨2020, 4, 15⟩) ∧
      headerVal tsBlockAfter.header "reference-time".toList = some (yyyymmdd ⟨2020, 4, 15⟩)) :=
  ⟨by decide,
   C3_set_time_series tsBlock ⟨2020, 4, 15⟩ [1062000000, 1062000010] [100, 100] [200, 200]
     tsBlockAfter 2 (by decide)⟩

/-! ## C5: the missing-value default -/

theorem loadGrdCore_inv (text : Str) (tup : Option Str × Option Str × ℕ × ℕ × List ℚ × List ℚ)
    (h : loadGrdCore text = some tup) :
    tup.1 = scanFor fCS text ∧ tup.2.1 = scanFor fMV text := by
  simp only [loadGrdCore] at h
  cases hmn : scanFor fMN text with
  | none => rw [hmn] at h; simp at h
  | some mn =>
    obtain ⟨m0, n0⟩ := mn
    rw [hmn] at h
    dsimp only at h
    cases hx : mapOpt parseFloat ((etaScan text m0).take n0).flatten with
    | none => rw [hx] at h; simp at h
    | some xs =>
      rw [hx] at h
      cases hy : mapOpt parseFloat ((etaScan text m0).drop n0).flatten with
      | none => rw [hy] at h; simp at h
      | some ys =>
        rw [hy] at h
        dsimp only at h
        by_cases hlen : xs.length = n0 * m0 ∧ ys.length = n0 * m0
        · rw [if_pos hlen] at h
          cases h
          exact ⟨rfl, rfl⟩
        · rw [if_neg hlen] at h; simp at h

/-- C5 (counterexample): the standalone variant (`src/GrdFile.py`) parsing
a grid file without a `Missing Value` header stores `None` — not `0` — as
the sentinel and masks nothing, so its zero-valued cell is not masked. -/
theorem C5_default_sentinel_counterexample :
    loadGrdS txtNoMV = some grdNoMVS ∧
    ¬ grdNoMVS.mv = some 0 ∧
    grdNoMVS.x.head? = some 0 ∧ grdNoMVS.maskX.head? = some false := by
  refine ⟨by decide, by decide, by decide, by decide⟩

/-- C5 (amended): when a grid file has no `Missing Value` header line, the
packaged codec (`src/delft3d/GrdFile.py`) stores sentinel `0` and masks
every coordinate cell equal to `0` exactly as it masks cells equal to an
explicit sentinel, while the standalone variant (`src/GrdFile.py`) stores
`None` and applies no masking at all. -/
theorem C5_default_sentinel (text : Str) (g : Grid) (gS : GridS)
    (hmv : scanFor fMV text = none)
    (hg : loadGrd text = some g) (hgS : loadGrdS text = some gS) :
    (g.mv = 0 ∧ g.maskX = g.x.map (fun v => decide (v = 0)) ∧
      g.maskY = g.y.map (fun v => decide (v = 0))) ∧
    (gS.mv = none ∧ gS.maskX = gS.x.map (fun _ => false) ∧
      gS.maskY = gS.y.map (fun _ => false)) := by
  constructor
  · simp only [loadGrd] at hg
    cases hcore : loadGrdCore text with
    | none => rw [hcore] at hg; simp at hg
    | some tup =>
      obtain ⟨cs, mvTok, m, n, xs, ys⟩ := tup
      have hmvTok : mvTok = none := by
        have := (loadGrdCore_inv text _ hcore).2
        simpa [hmv] using this
      rw [hcore] at hg
      subst hmvTok
      dsimp only at hg
      cases hg
      exact ⟨rfl, rfl, rfl⟩
  · simp only [loadGrdS] at hgS
    cases hcore : loadGrdCore text with
    | none => rw [hcore] at hgS; simp at hgS
    | some tup =>
      obtain ⟨cs, mvTok, m, n, xs, ys⟩ := tup
      have hmvTok : mvTok = none := by
        have := (loadGrdCore_inv text _ hcore).2
        simpa [hmv] using this
      rw [hcore] at hgS
      subst hmvTok
      dsimp only at hgS
      cases hgS
      exact ⟨rfl, rfl, rfl⟩

/-- C5 (witness): the default-sentinel theorem at the concrete headerless
grid file `txtNoMV`, parsed by both variants. -/
theorem C5_default_sentinel_witness :
    scanFor fMV txtNoMV = none ∧ loadGrd txtNoMV = some grdNoMV ∧
    loadGrdS txtNoMV = some grdNoMVS ∧
    ((grdNoMV.mv = 0 ∧ grdNoMV.maskX = grdNoMV.x.map (fun v => decide (v = 0)) ∧
        grdNoMV.maskY = grdNoMV.y.map (fun v => decide (v = 0))) ∧
      (grdNoMVS.mv = none ∧ grdNoMVS.maskX = grdNoMVS.x.map (fun _ => false) ∧
        grdNoMVS.maskY = grdNoMVS.y.map (fun _ => false))) :=
  ⟨by decide, by decide, by decide,
   C5_default_sentinel txtNoMV grdNoMV grdNoMVS (by decide) (by decide) (by decide)⟩

/-! ## C10: export emits no Missing Value line for a zero sentinel -/

theorem startsL_not_of_head (c : Char) (p : Str) (l : Str)
    (h : ∀ d, l.head? = some d → ¬ d = c) : startsL (c :: p) l = false := by
  cases l with
  | nil => rfl
  | cons d t =>
    have hdc : ¬ c = d := fun hcd => h d rfl hcd.symm
    simp only [startsL]
    rw [decide_eq_false hdc]
    simp

theorem natStrAux_digits : ∀ (fuel n : ℕ), ∀ c ∈ natStrAux fuel n, isDigitC c = true := by
  intro fuel
  induction fuel with
  | zero => intro n c hc; simp [natStrAux] at hc
  | succ fuel ih =>
    intro n c hc
    simp only [natStrAux] at hc
    by_cases h : n < 10
    · rw [if_pos h] at hc
      simp only [List.mem_singleton] at hc
      subst hc
      interval_cases n <;> decide
    · rw [if_neg h] at hc
      rcases List.mem_append.mp hc with hc | hc
      · exact ih _ c hc
      · simp only [List.mem_singleton] at hc
        subst hc
        have hlt : n % 10 < 10 := Nat.mod_lt _ (by norm_num)
        set k := n % 10 with hk
        interval_cases k <;> decide

theorem natStr_ne_nil (n : ℕ) : ¬ natStr n = [] := by
  simp only [natStr, natStrAux]
  by_cases h : n < 10
  · rw [if_pos h]; simp
  · rw [if_neg h]; simp

theorem padL_head (s : Str) (w : ℕ) (hs : ¬ s = []) :
    ∃ c, (padL s w).head? = some c ∧ (c = spc ∨ c ∈ s) := by
  simp only [padL]
  cases hk : w - s.length with
  | zero =>
    simp only [List.replicate_zero, List.nil_append]
    cases s with
    | nil => exact absurd rfl hs
    | cons d t => exact ⟨d, rfl, Or.inr (List.mem_cons_self d t)⟩
  | succ k =>
    simp only [List.replicate_succ, List.cons_append]
    exact ⟨spc, rfl, Or.inl rfl⟩

theorem padL_ne_nil (s : Str) (w : ℕ) (hs : ¬ s = []) : ¬ padL s w = [] := by
  simp only [padL]
  intro h
  rcases List.append_eq_nil.mp h with ⟨-, h2⟩
  exact hs h2

theorem not_startsL_of_head (c0 : Char) (l : Str) (hc : l.head? = some c0)
    (hne : ¬ c0 = 'M') : (! startsL "Missing Value".toList l) = true := by
  have hf : startsL "Missing Value".toList l = false := by
    have hlit : ("Missing Value".toList : Str) = 'M' :: "issing Value".toList := rfl
    rw [hlit]
    apply startsL_not_of_head
    intro d hd
    rw [hc] at hd
    injection hd with hd
    subst hd
    exact hne
  simp only [Bool.not_eq_true']
  exact hf

/-- C10 (confirmed): whenever a grid document's stored missing-value
sentinel equals `0` — including the default assigned when the parsed file
had no `Missing Value` header — `GrdFile.export` emits no `Missing Value`
header line at all; consequently a grid file that explicitly declares a
zero missing value does not reproduce that line on export. -/
theorem C10_no_missing_value_line (g : Grid) (h : g.mv = 0) :
    (grdExport g).all (fun l => ! startsL "Missing Value".toList l) = true := by
  rw [List.all_eq_true]
  intro l hl
  simp only [grdExport, h] at hl
  rw [if_neg (fun hc => hc trivial)] at hl
  simp only [List.append_nil, List.nil_append, List.append_assoc, List.mem_append,
    List.mem_cons, List.mem_singleton, List.not_mem_nil, or_false, false_or,
    gridWriter, List.mem_map] at hl
  rcases hl with hl | (hl | hl) | ⟨pr, hpr, hline⟩ | ⟨pr, hpr, hline⟩
  · subst hl
    exact not_startsL_of_head 'C' _ rfl (by decide)
  · subst hl
    rcases padL_head (natStr g.m) 8 (natStr_ne_nil _) with ⟨c, hc, hcase⟩
    refine not_startsL_of_head c _ ?_ ?_
    · rw [List.head?_append_of_ne_nil _ (padL_ne_nil _ _ (natStr_ne_nil _))]
      exact hc
    · rcases hcase with hcase | hcase
      · subst hcase; decide
      · intro heq
        rw [heq] at hcase
        have := natStrAux_digits _ _ _ hcase
        revert this
        decide
  · subst hl
    exact not_startsL_of_head spc _ rfl (by decide)
  · rw [← hline]
    exact not_startsL_of_head spc _ rfl (by decide)
  · rw [← hline]
    exact not_startsL_of_head spc _ rfl (by decide)

/-- C10 (witness): the grid file `txtZeroMV` explicitly declares
`Missing Value = 0.0000000e+00`; it parses to a document with sentinel `0`,
and no exported line starts with `Missing Value`. -/
theorem C10_no_missing_value_line_witness :
    loadGrd txtZeroMV = some grdZero ∧ grdZero.mv = 0 ∧
    (grdExport grdZero).all (fun l => ! startsL "Missing Value".toList l) = true :=
  ⟨by decide, by decide, C10_no_missing_value_line grdZero (by decide)⟩

/-! ## argmin lemmas -/

theorem argminGo_keep : ∀ (t : List (Option ℚ)) (i bi : ℕ) (bv : Option ℚ),
    (∀ w ∈ t, betterD w bv = false) → argminGo t i bi bv = bi := by
  intro t
  induction t with
  | nil => intro i bi bv _; rfl
  | cons w t ih =>
    intro i bi bv h
    simp only [argminGo]
    rw [h w (List.mem_cons_self w t)]
    simp only [Bool.false_eq_true, if_false]
    exact ih _ _ _ (fun w2 hw2 => h w2 (List.mem_cons_of_mem w hw2))

theorem argminGo_reach : ∀ (t : List (Option ℚ)) (i bi : ℕ) (bv : Option ℚ) (j : ℕ),
    t.get? j = some (some 0) →
    (∀ m < j, ∀ w, t.get? m = some w → betterD (some 0) w = true) →
    (∀ w ∈ t, betterD w (some 0) = false) →
    betterD (some 0) bv = true →
    argminGo t i bi bv = i + j := by
  intro t
  induction t with
  | nil => intro i bi bv j hj _ _ _; simp at hj
  | cons w t ih =>
    intro i bi bv j hj hearly hall hbv
    cases j with
    | zero =>
      simp only [List.get?_cons_zero, Option.some.injEq] at hj
      subst hj
      simp only [argminGo, hbv, if_true]
      rw [argminGo_keep t (i + 1) i (some 0)
        (fun w2 hw2 => hall w2 (List.mem_cons_of_mem _ hw2))]
      omega
    | succ j =>
      have hw0 : betterD (some 0) w = true :=
        hearly 0 (Nat.succ_pos j) w rfl
      simp only [argminGo]
      by_cases hb : betterD w bv = true
      · rw [hb]
        simp only [if_true]
        have := ih (i + 1) i w j hj
          (fun m hm w2 hw2 => hearly (m + 1) (Nat.succ_lt_succ hm) w2 hw2)
          (fun w2 hw2 => hall w2 (List.mem_cons_of_mem _ hw2)) hw0
        omega
      · rw [Bool.not_eq_true] at hb
        rw [hb]
        simp only [Bool.false_eq_true, if_false]
        have := ih (i + 1) bi bv j hj
          (fun m hm w2 hw2 => hearly (m + 1) (Nat.succ_lt_succ hm) w2 hw2)
          (fun w2 hw2 => hall w2 (List.mem_cons_of_mem _ hw2)) hbv
        omega

theorem argminO_zero_at (l : List (Option ℚ)) (k : ℕ)
    (hk : l.get? k = some (some 0))
    (hearly : ∀ m < k, ∀ w, l.get? m = some w → betterD (some 0) w = true)
    (hall : ∀ w ∈ l, betterD w (some 0) = false) :
    argminO l = k := by
  cases l with
  | nil => simp at hk
  | cons v t =>
    cases k with
    | zero =>
      simp only [List.get?_cons_zero, Option.some.injEq] at hk
      subst hk
      simp only [argminO]
      exact argminGo_keep t 1 0 (some 0)
        (fun w hw => hall w (List.mem_cons_of_mem _ hw))
    | succ k =>
      have hv : betterD (some 0) v = true := hearly 0 (Nat.succ_pos k) v rfl
      simp only [argminO]
      have := argminGo_reach t 1 0 v k hk
        (fun m hm w hw => hearly (m + 1) (Nat.succ_lt_succ hm) w hw)
        (fun w hw => hall w (List.mem_cons_of_mem _ hw)) hv
      omega

theorem argminGo_unmasked : ∀ (t : List (Option ℚ)) (i bi : ℕ) (bv : Option ℚ),
    (bv = none → ∃ w ∈ t, ¬ w = none) →
    (argminGo t i bi bv = bi ∧ ¬ bv = none) ∨
      (∃ j w, t.get? j = some w ∧ ¬ w = none ∧ argminGo t i bi bv = i + j) := by
  intro t
  induction t with
  | nil =>
    intro i bi bv h
    left
    refine ⟨rfl, fun hbv => ?_⟩
    rcases h hbv with ⟨w, hw, -⟩
    simp at hw
  | cons w t ih =>
    intro i bi bv h
    simp only [argminGo]
    by_cases hb : betterD w bv = true
    · rw [hb]
      simp only [if_true]
      have hwne : ¬ w = none := by
        intro hw
        subst hw
        simp [betterD] at hb
      rcases ih (i + 1) i w (fun hw => absurd hw hwne) with ⟨heq, hne⟩ | ⟨j, w2, hget, hne, heq⟩
      · exact Or.inr ⟨0, w, rfl, hwne, by omega⟩
      · exact Or.inr ⟨j + 1, w2, by simpa using hget, hne, by omega⟩
    · rw [Bool.not_eq_true] at hb
      rw [hb]
      simp only [Bool.false_eq_true, if_false]
      have hrec : bv = none → ∃ w2 ∈ t, ¬ w2 = none := by
        intro hbv
        rcases h hbv with ⟨w2, hw2, hne2⟩
        rcases List.mem_cons.mp hw2 with hw2 | hw2
        · subst hw2
          exfalso
          cases w2 with
          | none => exact hne2 rfl
          | some a =>
            subst hbv
            simp [betterD] at hb
        · exact ⟨w2, hw2, hne2⟩
      rcases ih (i + 1) bi bv hrec with ⟨heq, hne⟩ | ⟨j, w2, hget, hne, heq⟩
      · exact Or.inl ⟨heq, hne⟩
      · exact Or.inr ⟨j + 1, w2, by simpa using hget, hne, by omega⟩

theorem argminO_get_unmasked (l : List (Option ℚ))
    (h : ∃ w ∈ l, ¬ w = none) :
    ∃ w2, l.get? (argminO l) = some w2 ∧ ¬ w2 = none := by
  cases l with
  | nil => rcases h with ⟨w, hw, -⟩; simp at hw
  | cons v t =>
    simp only [argminO]
    have hrec : v = none → ∃ w ∈ t, ¬ w = none := by
      intro hv
      rcases h with ⟨w, hw, hne⟩
      rcases List.mem_cons.mp hw with hw | hw
      · subst hw; exact absurd hv hne
      · exact ⟨w, hw, hne⟩
    rcases argminGo_unmasked t 1 0 v hrec with ⟨heq, hne⟩ | ⟨j, w2, hget, hne, heq⟩
    · rw [heq]
      exact ⟨v, rfl, hne⟩
    · rw [heq, show (1 : ℕ) + j = j + 1 from by omega]
      exact ⟨w2, by simpa using hget, hne⟩

/-! ## zip / get? helper lemmas -/

theorem zip_get?_some {α β : Type} : ∀ (l1 : List α) (l2 : List β) (i : ℕ) (a : α) (b : β),
    l1.get? i = some a → l2.get? i = some b → (l1.zip l2).get? i = some (a, b) := by
  intro l1
  induction l1 with
  | nil => intro l2 i a b h _; simp at h
  | cons x t ih =>
    intro l2 i a b h1 h2
    cases l2 with
    | nil => simp at h2
    | cons y t2 =>
      cases i with
      | zero =>
        simp only [List.get?_cons_zero, Option.some.injEq] at h1 h2
        subst h1; subst h2
        rfl
      | succ i =>
        simp only [List.get?_cons_succ] at h1 h2 ⊢
        simp only [List.zip_cons_cons, List.get?_cons_succ]
        exact ih t2 i a b h1 h2

theorem zip_get?_inv {α β : Type} : ∀ (l1 : List α) (l2 : List β) (i : ℕ) (p : α × β),
    (l1.zip l2).get? i = some p → l1.get? i = some p.1 ∧ l2.get? i = some p.2 := by
  intro l1
  induction l1 with
  | nil => intro l2 i p h; simp [List.zip] at h
  | cons x t ih =>
    intro l2 i p h
    cases l2 with
    | nil => simp [List.zip] at h
    | cons y t2 =>
      cases i with
      | zero =>
        simp only [List.zip_cons_cons, List.get?_cons_zero, Option.some.injEq] at h
        subst h
        exact ⟨rfl, rfl⟩
      | succ i =>
        simp only [List.zip_cons_cons, List.get?_cons_succ] at h ⊢
        exact ih t2 i p h

/-! ## dis2 decomposition lemmas -/

theorem dis2_get? (g : Grid) (qx qy : ℚ) (j : ℕ) (a b : ℚ) (ma mb : Bool)
    (hx : g.x.get? j = some a) (hy : g.y.get? j = some b)
    (hmx : g.maskX.get? j = some ma) (hmy : g.maskY.get? j = some mb) :
    (dis2 g qx qy).get? j =
      some (if ma || mb then none else some ((qx - a) ^ 2 + (qy - b) ^ 2)) := by
  simp only [dis2]
  rw [List.get?_map,
    zip_get?_some _ _ _ _ _ (zip_get?_some _ _ _ _ _ hx hy) (zip_get?_some _ _ _ _ _ hmx hmy)]
  rfl

theorem dis2_get?_inv (g : Grid) (qx qy : ℚ) (j : ℕ) (w : Option ℚ)
    (h : (dis2 g qx qy).get? j = some w) :
    ∃ a b ma mb, g.x.get? j = some a ∧ g.y.get? j = some b ∧
      g.maskX.get? j = some ma ∧ g.maskY.get? j = some mb ∧
      w = if ma || mb then none else some ((qx - a) ^ 2 + (qy - b) ^ 2) := by
  simp only [dis2, List.get?_map] at h
  cases hz : ((g.x.zip g.y).zip (g.maskX.zip g.maskY)).get? j with
  | none => rw [hz] at h; exact absurd h (by simp)
  | some p =>
    rw [hz] at h
    obtain ⟨⟨a, b⟩, ma, mb⟩ := p
    have h1 := zip_get?_inv _ _ _ _ hz
    have h2 := zip_get?_inv _ _ _ _ h1.1
    have h3 := zip_get?_inv _ _ _ _ h1.2
    simp only [Option.map_some', Option.some.injEq] at h
    exact ⟨a, b, ma, mb, h2.1, h2.2, h3.1, h3.2, h.symm⟩

theorem dis2_mem (g : Grid) (qx qy : ℚ) (w : Option ℚ) (hw : w ∈ dis2 g qx qy) :
    w = none ∨ ∃ a b, w = some ((qx - a) ^ 2 + (qy - b) ^ 2) := by
  simp only [dis2, List.mem_map] at hw
  obtain ⟨p, -, hp⟩ := hw
  by_cases hm : (p.2.1 || p.2.2) = true
  · rw [if_pos hm] at hp
    exact Or.inl hp.symm
  · rw [if_neg hm] at hp
    exact Or.inr ⟨p.1.1, p.1.2, hp.symm⟩

/-! ## C8: the nearest-grid scenario -/

/-- C8 (confirmed): for a (non-spherical) grid with `M = 7`, `N = 245`,
querying `get_nearest_grid` with the exact coordinates of the unmasked
node at row 5, column 4 (flat index `39`) — while every earlier node is
masked or lies elsewhere — returns `(4, 5)`, i.e. `(column, row)`: flat
index 39 minimizes the distance, its distance being `0` and every other
distance nonnegative. -/
theorem C8_nearest_node (g : Grid) (T : ℚ → ℚ → ℚ × ℚ) (qx qy : ℚ)
    (hcs : ¬ g.cs = some "Spherical".toList)
    (hm : g.m = 7) (hn : g.n = 245)
    (hx39 : g.x.get? 39 = some qx) (hy39 : g.y.get? 39 = some qy)
    (hmx39 : g.maskX.get? 39 = some false) (hmy39 : g.maskY.get? 39 = some false)
    (hearly : ∀ j < 39, (g.maskX.get? j).getD false = true ∨
      (g.maskY.get? j).getD false = true ∨
      ¬ (g.x.get? j = some qx ∧ g.y.get? j = some qy)) :
    getNearestGrid g T qx qy = (4, 5) := by
  have hk : (dis2 g qx qy).get? 39 = some (some 0) := by
    rw [dis2_get? g qx qy 39 qx qy false false hx39 hy39 hmx39 hmy39]
    simp
  have hargmin : argminO (dis2 g qx qy) = 39 := by
    apply argminO_zero_at _ _ hk
    · intro m hm2 w hw
      obtain ⟨a, b, ma, mb, hxa, hyb, hma, hmb, hwe⟩ := dis2_get?_inv g qx qy m w hw
      rcases hearly m hm2 with hmask | hmask | hne
      · rw [hma] at hmask
        simp only [Option.getD_some] at hmask
        subst hmask
        rw [hwe]
        simp [betterD]
      · rw [hmb] at hmask
        simp only [Option.getD_some] at hmask
        subst hmask
        rw [hwe]
        simp [betterD]
      · rw [hwe]
        by_cases hmm : (ma || mb) = true
        · rw [if_pos hmm]
          rfl
        · rw [if_neg hmm]
          simp only [betterD, decide_eq_true_eq]
          have hne2 : ¬ (a = qx ∧ b = qy) := by
            rintro ⟨h1, h2⟩
            exact hne ⟨by rw [hxa, h1], by rw [hyb, h2]⟩
          rcases not_and_or.mp hne2 with h1 | h1
          · have hp := pow_two_pos_of_ne_zero (sub_ne_zero_of_ne (fun h2 => h1 h2.symm))
            nlinarith [sq_nonneg (qy - b)]
          · have hp := pow_two_pos_of_ne_zero (sub_ne_zero_of_ne (fun h2 => h1 h2.symm))
            nlinarith [sq_nonneg (qx - a)]
    · intro w hw
      rcases dis2_mem g qx qy w hw with hw0 | ⟨a, b, hwe⟩
      · subst hw0; rfl
      · subst hwe
        simp only [betterD, decide_eq_false_iff_not]
        intro hlt
        nlinarith [sq_nonneg (qx - a), sq_nonneg (qy - b)]
  simp only [getNearestGrid, if_neg hcs, nearestFlat]
  rw [hargmin, hm]

/-- C8 (witness): the scenario theorem at the concrete 245x7 Cartesian grid
`gridW` whose node `(row, col)` is `(col, row)`, queried at node
`(row 5, col 4) = (4, 5)`. -/
theorem C8_nearest_node_witness :
    (¬ gridW.cs = some "Spherical".toList) ∧ gridW.m = 7 ∧ gridW.n = 245 ∧
    gridW.x.get? 39 = some 4 ∧ gridW.y.get? 39 = some 5 ∧
    gridW.maskX.get? 39 = some false ∧ gridW.maskY.get? 39 = some false ∧
    (∀ j < 39, (gridW.maskX.get? j).getD false = true ∨
      (gridW.maskY.get? j).getD false = true ∨
      ¬ (gridW.x.get? j = some 4 ∧ gridW.y.get? j = some 5)) ∧
    getNearestGrid gridW Tid 4 5 = (4, 5) :=
  ⟨by decide, rfl, rfl, by decide, by decide, by decide, by decide, by decide,
   C8_nearest_node gridW Tid 4 5 (by decide) rfl rfl (by decide) (by decide) (by decide)
     (by decide) (by decide)⟩

/-! ## C9: masking in the nearest-grid search -/

/-- C9 (counterexample): in the automatically reprojected spherical path
the mask is not applied — the external transformer returns plain
replacement matrices — so querying the parsed spherical grid `txtSph` at
the transformed sentinel location returns `(0, 0)`, the index of a masked
(sentinel-valued) cell. -/
theorem C9_spherical_counterexample :
    loadGrd txtSph = some grdSph ∧
    grdSph.cs = some "Spherical".toList ∧
    grdSph.maskX.get? 0 = some true ∧ grdSph.maskY.get? 0 = some true ∧
    getNearestGrid grdSph Tid 999 999 = (0, 0) :=
  ⟨by decide, by decide, by decide, by decide, by decide⟩

/-- C9 (amended): in the Cartesian path, any cell masked in the distance
array (i.e. equal to the declared sentinel in X or Y) is excluded from the
comparison: as long as at least one cell is unmasked, the flat index
returned by the distance argmin is never that of a masked cell.  In the
spherical path the mask is dropped with the reprojection, and a masked
cell can be returned (see the counterexample). -/
theorem C9_mask_exclusion (g : Grid) (qx qy : ℚ) (j : ℕ)
    (hmask : (dis2 g qx qy).get? j = some none)
    (hun : ∃ w ∈ dis2 g qx qy, ¬ w = none) :
    ¬ nearestFlat g qx qy = j := by
  intro heq
  obtain ⟨w2, hget, hne⟩ := argminO_get_unmasked _ hun
  rw [show nearestFlat g qx qy = argminO (dis2 g qx qy) from rfl] at heq
  rw [heq, hmask] at hget
  exact hne (Option.some.inj hget).symm

/-- C9 (witness): the Cartesian exclusion theorem at the concrete grid
`gridM` whose first cell is masked: the argmin avoids index 0. -/
theorem C9_mask_exclusion_witness :
    (dis2 gridM 5 5).get? 0 = some none ∧ (∃ w ∈ dis2 gridM 5 5, ¬ w = none) ∧
    ¬ nearestFlat gridM 5 5 = 0 :=
  ⟨by decide, by decide, C9_mask_exclusion gridM 5 5 0 (by decide) (by decide)⟩

/-! ## C1 machinery: string-structure lemmas -/

theorem stripNL_concat (l : Str) : stripNL (l ++ [nlc]) = l := by
  simp [stripNL, List.getLast?_concat, List.dropLast_concat]

theorem spc_not_word : wordChar spc = false := by decide

theorem spc_ws : isWS spc = true := by decide

theorem matchesMain_shape (k : Str) (rest : Str) (hk1 : ¬ k = []) (hk2 : k.all wordChar = true) :
    matchesMain (padR k 6 ++ [spc, eqC] ++ rest) =
      (if (rest.dropWhile isWS).all valClassChar then some (k, rest.dropWhile isWS)
       else none) := by
  have hname : (padR k 6 ++ [spc, eqC] ++ rest).takeWhile wordChar = k := by
    simp only [padR, List.append_assoc]
    rw [List.takeWhile_append_of_pos (by simpa [List.all_eq_true] using hk2)]
    have h0 : (List.replicate (6 - k.length) spc ++ ([spc, eqC] ++ rest)).takeWhile wordChar
        = [] := by
      cases h6 : 6 - k.length with
      | zero =>
        simp only [List.replicate_zero, List.nil_append, List.cons_append]
        exact List.takeWhile_cons_of_neg (by decide)
      | succ j =>
        rw [List.replicate_succ, List.cons_append]
        exact List.takeWhile_cons_of_neg (by decide)
    rw [h0, List.append_nil]
  have hdrop : ((padR k 6 ++ [spc, eqC] ++ rest).drop k.length) =
      List.replicate (6 - k.length) spc ++ ([spc, eqC] ++ rest) := by
    simp only [padR, List.append_assoc]
    exact List.drop_left k _
  have hdw : (List.replicate (6 - k.length) spc ++ ([spc, eqC] ++ rest)).dropWhile isWS
      = eqC :: rest := by
    rw [List.dropWhile_append_of_pos (by
      intro a ha
      rw [List.eq_of_mem_replicate ha]
      exact spc_ws)]
    rw [List.cons_append, List.dropWhile_cons_of_pos spc_ws, List.cons_append,
      List.dropWhile_cons_of_neg (by decide)]
    simp
  simp only [matchesMain, hname, hdrop, hdw]
  rw [if_neg (by simpa [List.isEmpty_iff] using hk1)]
  simp

theorem matchesMain_spc (l : Str) : matchesMain (spc :: l) = none := by
  simp only [matchesMain]
  rw [List.takeWhile_cons_of_neg (by decide)]
  rfl

theorem matchesCont_pad (j : ℕ) (l : Str) (hl : ∀ c, l.head? = some c → isWS c = false) :
    matchesCont (List.replicate (j + 1) spc ++ l) = some l := by
  rw [List.replicate_succ, List.cons_append]
  simp only [matchesCont]
  rw [if_pos spc_ws, List.dropWhile_cons_of_pos spc_ws,
    List.dropWhile_append_of_pos (by
      intro a ha
      rw [List.eq_of_mem_replicate ha]
      exact spc_ws)]
  cases l with
  | nil => rfl
  | cons c t => rw [List.dropWhile_cons_of_neg (by simp [hl c rfl])]

theorem splitWSAux_nows : ∀ (t cur : Str), (∀ c ∈ t, isWS c = false) →
    splitWSAux t cur = if cur = [] ∧ t = [] then [] else [cur.reverse ++ t] := by
  intro t
  induction t with
  | nil =>
    intro cur _
    simp only [splitWSAux, List.append_nil]
    by_cases hc : cur = []
    · subst hc; simp
    · rw [if_neg (by simpa [List.isEmpty_iff] using hc), if_neg (by simp [hc])]
  | cons c t ih =>
    intro cur h
    simp only [splitWSAux]
    rw [if_neg (by simp [h c (List.mem_cons_self c t)])]
    rw [ih (c :: cur) (fun c2 hc2 => h c2 (List.mem_cons_of_mem c hc2))]
    rw [if_neg (by simp)]
    simp

theorem splitWSAux_token : ∀ (t cur rest : Str), (∀ c ∈ t, isWS c = false) →
    ¬ (cur = [] ∧ t = []) →
    splitWSAux (t ++ spc :: rest) cur = (cur.reverse ++ t) :: splitWSAux rest [] := by
  intro t
  induction t with
  | nil =>
    intro cur rest _ hne
    have hc : ¬ cur = [] := fun h => hne ⟨h, rfl⟩
    simp only [List.nil_append, splitWSAux]
    rw [if_pos spc_ws, if_neg (by simpa [List.isEmpty_iff] using hc)]
    simp
  | cons c t ih =>
    intro cur rest h _
    have hstep : splitWSAux ((c :: t) ++ spc :: rest) cur
        = splitWSAux (t ++ spc :: rest) (c :: cur) := by
      simp only [List.cons_append, splitWSAux]
      rw [if_neg (by simp [h c (List.mem_cons_self c t)])]
      rfl
    rw [hstep, ih (c :: cur) rest (fun c2 hc2 => h c2 (List.mem_cons_of_mem c hc2)) (by simp)]
    simp

/-- The single-line join of a token list, as the array exporter writes it. -/
def joinToks : List Str → Str
  | [] => []
  | t :: rest => t ++ (rest.flatMap (fun t2 => spc :: t2))

theorem splitWS_tokens : ∀ (toks : List Str), ¬ toks = [] →
    (∀ t ∈ toks, ¬ t = [] ∧ ∀ c ∈ t, isWS c = false) →
    splitWS (joinToks toks) = toks := by
  intro toks
  induction toks with
  | nil => intro h _; exact absurd rfl h
  | cons t rest ih =>
    intro _ h
    cases rest with
    | nil =>
      simp only [joinToks, List.flatMap_nil, List.append_nil, splitWS]
      rw [splitWSAux_nows t [] (h t (List.mem_cons_self t _)).2]
      rw [if_neg (by simp [(h t (List.mem_cons_self t _)).1])]
      simp
    | cons t2 rest2 =>
      simp only [joinToks, List.flatMap_cons, List.cons_append] at ih ⊢
      simp only [splitWS]
      rw [splitWSAux_token t [] _ (h t (List.mem_cons_self t _)).2
        (by simp [(h t (List.mem_cons_self t _)).1])]
      simp only [List.reverse_nil, List.nil_append]
      have hres := ih (by simp) (fun t3 ht3 => h t3 (List.mem_cons_of_mem t ht3))
      simp only [splitWS] at hres
      rw [hres]

/-! ## C1 machinery: association-list freshness lemmas -/

theorem updA_fresh {α : Type} : ∀ (d : List (Str × α)) (k : Str) (v : α),
    ¬ k ∈ d.map Prod.fst → updA d k v = d ++ [(k, v)] := by
  intro d
  induction d with
  | nil => intro k v _; rfl
  | cons e t ih =>
    intro k v h
    simp only [List.map_cons, List.mem_cons, not_or] at h
    simp only [updA]
    rw [if_neg (fun he => h.1 he.symm), ih k v h.2]
    rfl

theorem updA_append_last {α : Type} : ∀ (d : List (Str × α)) (k : Str) (x v : α),
    ¬ k ∈ d.map Prod.fst → updA (d ++ [(k, x)]) k v = d ++ [(k, v)] := by
  intro d
  induction d with
  | nil => intro k x v _; simp [updA]
  | cons e t ih =>
    intro k x v h
    simp only [List.map_cons, List.mem_cons, not_or] at h
    simp only [List.cons_append, updA]
    rw [if_neg (fun he => h.1 he.symm)]
    show (e.1, e.2) :: updA (t ++ [(k, x)]) k v = e :: (t ++ [(k, v)])
    rw [ih k x v h.2]

theorem lookupA_append_last {α : Type} : ∀ (d : List (Str × α)) (k : Str) (x : α),
    ¬ k ∈ d.map Prod.fst → lookupA (d ++ [(k, x)]) k = some x := by
  intro d
  induction d with
  | nil => intro k x _; simp [lookupA]
  | cons e t ih =>
    intro k x h
    simp only [List.map_cons, List.mem_cons, not_or] at h
    simp only [List.cons_append, lookupA]
    rw [if_neg (fun he => h.1 he.symm)]
    exact ih k x h.2

/-! ## C1 machinery: classification lemmas -/

theorem goodNum_props (k : Str) (q : ℚ) (h : goodNum k q = true) :
    ¬ numTok k q = [] ∧ (numTok k q).all valClassChar = true ∧
    hasChar (numTok k q) hashC = false ∧ hasChar (numTok k q) lbrkC = false ∧
    (∀ c ∈ numTok k q, isWS c = false) ∧ parseFloat (numTok k q) = some q := by
  simp only [goodNum, Bool.and_eq_true, decide_eq_true_eq] at h
  obtain ⟨⟨⟨h1, h2⟩, h3⟩, h4⟩ := h
  simp only [List.any_eq_true, not_exists, not_and, Bool.or_eq_true, decide_eq_true_eq,
    not_or, Bool.not_eq_true] at h3
  have h3' : ∀ c ∈ numTok k q, ¬ c = hashC ∧ ¬ c = lbrkC ∧ isWS c = false := by
    intro c hc
    have := h3 c hc
    tauto
  refine ⟨by simpa [List.isEmpty_iff] using h1, h2, ?_, ?_, fun c hc => (h3' c hc).2.2, h4⟩
  · rw [show hasChar (numTok k q) hashC = List.any (numTok k q) (fun d => decide (d = hashC))
      from rfl]
    rw [List.any_eq_false]
    intro c hc
    simpa using (h3' c hc).1
  · rw [show hasChar (numTok k q) lbrkC = List.any (numTok k q) (fun d => decide (d = lbrkC))
      from rfl]
    rw [List.any_eq_false]
    intro c hc
    simpa using (h3' c hc).2.1

theorem hasChar_false_forall (s : Str) (c : Char) (h : hasChar s c = false) :
    ∀ d ∈ s, ¬ d = c := by
  simp only [hasChar, List.any_eq_false] at h
  intro d hd
  simpa using h d hd

theorem rstripSpc_concat (l : Str) (c : Char) (hc : ¬ c = spc) :
    rstripSpc (l ++ [c]) = l ++ [c] := by
  simp only [rstripSpc, List.reverse_append, List.reverse_cons, List.reverse_nil,
    List.nil_append, List.cons_append]
  rw [List.dropWhile_cons_of_neg (by simpa using hc)]
  simp

theorem remHash_of_none (s : Str) (h : hasChar s hashC = false) : remHash s = s := by
  apply List.filter_eq_self.mpr
  intro a ha
  simpa using hasChar_false_forall s hashC h a ha

theorem splitWS_single (t : Str) (h1 : ¬ t = []) (h2 : ∀ c ∈ t, isWS c = false) :
    splitWS t = [t] := by
  simp only [splitWS]
  rw [splitWSAux_nows t [] h2, if_neg (by simp [h1])]
  simp

theorem classify_num (k : Str) (q : ℚ) (h : goodNum k q = true) :
    classify (numTok k q) = some (.num q) := by
  obtain ⟨h1, h2, h3, h4, h5, h6⟩ := goodNum_props k q h
  simp only [classify, h3, h4]
  rw [splitWS_single _ h1 h5]
  simp only [mapOpt, h6]
  rfl

theorem flat_noChar (c : Char) (hc : ¬ spc = c) : ∀ (rest : List Str),
    (∀ t ∈ rest, hasChar t c = false) →
    hasChar (rest.flatMap (fun t2 => spc :: t2)) c = false := by
  intro rest
  induction rest with
  | nil => intro _; rfl
  | cons t2 rest2 ih =>
    intro h
    simp only [List.flatMap_cons, hasChar, List.any_append, List.any_cons]
    have ht2 := h t2 (List.mem_cons_self t2 rest2)
    have hrest := ih (fun t3 ht3 => h t3 (List.mem_cons_of_mem t2 ht3))
    simp only [hasChar] at ht2 hrest
    rw [ht2, hrest]
    simp [hc]

theorem joinToks_noChar (c : Char) (hc : ¬ spc = c) (toks : List Str)
    (h : ∀ t ∈ toks, hasChar t c = false) : hasChar (joinToks toks) c = false := by
  cases toks with
  | nil => rfl
  | cons t rest =>
    simp only [joinToks, hasChar, List.any_append]
    have ht := h t (List.mem_cons_self t rest)
    have hrest := flat_noChar c hc rest (fun t3 ht3 => h t3 (List.mem_cons_of_mem t ht3))
    simp only [hasChar] at ht hrest
    rw [ht, hrest]
    rfl

theorem mapOpt_map_numTok (k : Str) : ∀ (l : List ℚ),
    (∀ q ∈ l, goodNum k q = true) →
    mapOpt parseFloat (l.map (numTok k)) = some l := by
  intro l
  induction l with
  | nil => intro _; rfl
  | cons q t ih =>
    intro h
    simp only [List.map_cons, mapOpt,
      (goodNum_props k q (h q (List.mem_cons_self q t))).2.2.2.2.2]
    rw [ih (fun q2 hq2 => h q2 (List.mem_cons_of_mem q hq2))]

theorem classify_arr (k : Str) (a b : ℚ) (t : List ℚ)
    (h : ∀ q ∈ a :: b :: t, goodNum k q = true) :
    classify (joinToks ((a :: b :: t).map (numTok k))) = some (.arr (a :: b :: t)) := by
  have hmem : ∀ s ∈ (a :: b :: t).map (numTok k), ¬ s = [] ∧ ∀ c ∈ s, isWS c = false := by
    intro s hs
    rcases List.mem_map.mp hs with ⟨q, hq, hsq⟩
    obtain ⟨p1, -, -, -, p5, -⟩ := goodNum_props k q (h q hq)
    exact ⟨by rw [← hsq]; exact p1, by rw [← hsq]; exact p5⟩
  have hhash : hasChar (joinToks ((a :: b :: t).map (numTok k))) hashC = false := by
    apply joinToks_noChar _ (by decide)
    intro s hs
    rcases List.mem_map.mp hs with ⟨q, hq, hsq⟩
    rw [← hsq]
    exact (goodNum_props k q (h q hq)).2.2.1
  have hlbrk : hasChar (joinToks ((a :: b :: t).map (numTok k))) lbrkC = false := by
    apply joinToks_noChar _ (by decide)
    intro s hs
    rcases List.mem_map.mp hs with ⟨q, hq, hsq⟩
    rw [← hsq]
    exact (goodNum_props k q (h q hq)).2.2.2.1
  simp only [classify, hhash, hlbrk]
  rw [splitWS_tokens _ (by simp) hmem, mapOpt_map_numTok k _ h]
  rfl

theorem classify_hash (s : Str) (hh : hasChar s hashC = false)
    (hb : hasChar s lbrkC = false) :
    classify (hashC :: s ++ [hashC]) = some (.vstr s) := by
  have hv1 : hasChar (hashC :: s ++ [hashC]) hashC = true := by
    simp [hasChar]
  have hv2 : hasChar (hashC :: s ++ [hashC]) lbrkC = false := by
    simp only [hasChar, List.any_cons, List.any_append, List.any_nil] at hb ⊢
    rw [hb]
    decide
  have hrem : remHash ((hashC :: s) ++ [hashC]) = s := by
    simp only [remHash, List.filter_append]
    rw [List.filter_cons_of_neg (by decide), List.filter_cons_of_neg (by decide)]
    have hs2 := remHash_of_none s hh
    simp only [remHash] at hs2
    rw [hs2]
    simp
  simp only [classify, hv1, hv2]
  rw [show (hashC :: s ++ [hashC] : Str) = (hashC :: s) ++ [hashC] from rfl,
    rstripSpc_concat _ _ (by decide), hrem]
  rfl

theorem classify_raw (s : Str) (hb : hasChar s lbrkC = true) :
    classify s = some (.vstr s) := by
  simp only [classify, hb]
  simp

theorem dropWhile_head_not (v : Str) (h : ∀ c, v.head? = some c → isWS c = false) :
    v.dropWhile isWS = v := by
  cases v with
  | nil => rfl
  | cons c t => exact List.dropWhile_cons_of_neg (by simp [h c rfl])

theorem remHash_delims (x : Str) (hx : hasChar x hashC = false) :
    remHash ((hashC :: x) ++ [hashC]) = x := by
  simp only [remHash, List.filter_append]
  rw [List.filter_cons_of_neg (by decide), List.filter_cons_of_neg (by decide)]
  have hs2 := remHash_of_none x hx
  simp only [remHash] at hs2
  rw [hs2]
  simp

theorem kvHead_eq (k v : Str) : kvHead k v = padR k 6 ++ [spc, eqC] ++ (spc :: v) := by
  simp [kvHead, List.append_assoc]

/-- Processing the first line of an entry: a `name = value` line whose
value classifies to `mv`. -/
theorem headLine_step (k v : Str) (mv : MVal) (rest : List Str) (d : MDoc) (pn : Option Str)
    (hk1 : ¬ k = []) (hk2 : k.all wordChar = true) (hk3 : ¬ k = "Commnt".toList)
    (hvh : ∀ c, v.head? = some c → isWS c = false)
    (hvc : v.all valClassChar = true)
    (hcl : classify v = some mv) :
    mdfLoadAux ((kvHead k v ++ [nlc]) :: rest) d pn = mdfLoadAux rest (updA d k mv) (some k) := by
  simp only [mdfLoadAux, stripNL_concat]
  rw [kvHead_eq, matchesMain_shape k _ hk1 hk2]
  rw [List.dropWhile_cons_of_pos spc_ws, dropWhile_head_not v hvh]
  rw [if_pos hvc]
  simp only [if_neg hk3, hcl]

/-- Continuation lines of a multi-line array parameter. -/
theorem mat_cont_run (k : Str) : ∀ (ts acc : List ℚ) (rest : List Str) (d : MDoc),
    ¬ k ∈ d.map Prod.fst → (∀ q ∈ ts, goodNum k q = true) →
    mdfLoadAux ((ts.map (fun q => List.replicate 10 spc ++ numTok k q ++ [nlc])) ++ rest)
      (d ++ [(k, MVal.mat acc)]) (some k) =
    mdfLoadAux rest (d ++ [(k, MVal.mat (acc ++ ts))]) (some k) := by
  intro ts
  induction ts with
  | nil => intro acc rest d _ _; simp
  | cons q ts ih =>
    intro acc rest d hfresh hgood
    obtain ⟨p1, -, p3, -, p5, p6⟩ := goodNum_props k q (hgood q (List.mem_cons_self q ts))
    simp only [List.map_cons, List.cons_append]
    have hline : (List.replicate 10 spc ++ numTok k q ++ [nlc] : Str)
        = (List.replicate 10 spc ++ numTok k q) ++ [nlc] := by simp
    rw [hline]
    simp only [mdfLoadAux, stripNL_concat]
    have hmm : matchesMain (List.replicate 10 spc ++ numTok k q) = none := by
      rw [show (10 : ℕ) = 9 + 1 from rfl, List.replicate_succ, List.cons_append]
      exact matchesMain_spc _
    have hmc : matchesCont (List.replicate 10 spc ++ numTok k q) = some (numTok k q) := by
      rw [show (10 : ℕ) = 9 + 1 from rfl]
      apply matchesCont_pad
      intro c hc
      cases ht : numTok k q with
      | nil => rw [ht] at hc; simp at hc
      | cons c2 t2 =>
        rw [ht] at hc
        simp only [List.head?_cons, Option.some.injEq] at hc
        rw [← hc]
        exact p5 c2 (by rw [ht]; exact List.mem_cons_self _ _)
    have hnohash : hasChar (List.replicate 10 spc ++ numTok k q) hashC = false := by
      have ha : (List.replicate 10 spc).any (fun d => decide (d = hashC)) = false := by
        rw [List.any_eq_false]
        intro a ha
        rw [List.eq_of_mem_replicate ha]
        decide
      have hb : (numTok k q).any (fun d => decide (d = hashC)) = false := by
        rw [List.any_eq_false]
        intro a ha2
        simpa using hasChar_false_forall _ _ p3 a ha2
      simp only [hasChar, List.any_append] at ha hb ⊢
      rw [ha, hb]
      rfl
    rw [hmm, hmc]
    simp only [contLine, hnohash, lookupA_append_last d k _ hfresh, p6,
      Bool.false_eq_true, if_false]
    rw [updA_append_last d k _ _ hfresh]
    rw [ih (acc ++ [q]) rest d hfresh (fun q2 hq2 => hgood q2 (List.mem_cons_of_mem q hq2))]
    simp

/-- Continuation lines of a multi-line string-list parameter. -/
theorem vlist_cont_run (k : Str) : ∀ (xs acc : List Str) (rest : List Str) (d : MDoc),
    ¬ k ∈ d.map Prod.fst →
    (∀ x ∈ xs, x.all valClassChar = true ∧ hasChar x hashC = false) →
    mdfLoadAux ((xs.map (fun x => List.replicate 9 spc ++ hashC :: x ++ [hashC, nlc])) ++ rest)
      (d ++ [(k, MVal.vlist acc)]) (some k) =
    mdfLoadAux rest (d ++ [(k, MVal.vlist (acc ++ xs))]) (some k) := by
  intro xs
  induction xs with
  | nil => intro acc rest d _ _; simp
  | cons x xs ih =>
    intro acc rest d hfresh hgood
    obtain ⟨g1, g2⟩ := hgood x (List.mem_cons_self x xs)
    simp only [List.map_cons, List.cons_append]
    have hline : (List.replicate 9 spc ++ hashC :: x ++ [hashC, nlc] : Str)
        = (List.replicate 9 spc ++ (hashC :: x ++ [hashC])) ++ [nlc] := by simp
    rw [hline]
    simp only [mdfLoadAux, stripNL_concat]
    have hmm : matchesMain (List.replicate 9 spc ++ (hashC :: x ++ [hashC])) = none := by
      rw [show (9 : ℕ) = 8 + 1 from rfl, List.replicate_succ, List.cons_append]
      exact matchesMain_spc _
    have hmc : matchesCont (List.replicate 9 spc ++ (hashC :: x ++ [hashC]))
        = some (hashC :: x ++ [hashC]) := by
      rw [show (9 : ℕ) = 8 + 1 from rfl]
      apply matchesCont_pad
      intro c hc
      rw [show (hashC :: x ++ [hashC] : Str) = hashC :: (x ++ [hashC]) from by simp] at hc
      simp only [List.head?_cons, Option.some.injEq] at hc
      rw [← hc]
      decide
    have hyes : hasChar (List.replicate 9 spc ++ (hashC :: x ++ [hashC])) hashC = true := by
      simp [hasChar]
    rw [hmm, hmc]
    simp only [contLine, hyes, lookupA_append_last d k _ hfresh]
    rw [show ((hashC :: x ++ [hashC]) : Str) = (hashC :: x) ++ [hashC] from rfl,
      remHash_delims x g2]
    rw [updA_append_last d k _ _ hfresh]
    rw [if_pos trivial]
    dsimp only
    rw [ih (acc ++ [x]) rest d hfresh (fun x2 hx2 => hgood x2 (List.mem_cons_of_mem x hx2))]
    simp

theorem head_not_ws_of_forall (v : Str) (h : ∀ c ∈ v, isWS c = false) :
    ∀ c, v.head? = some c → isWS c = false := by
  intro c hc
  cases v with
  | nil => simp at hc
  | cons c2 t =>
    simp only [List.head?_cons, Option.some.injEq] at hc
    rw [← hc]
    exact h c2 (List.mem_cons_self c2 t)

theorem flat_all (p : Char → Bool) (hspc : p spc = true) : ∀ (rest : List Str),
    (∀ t ∈ rest, t.all p = true) →
    (rest.flatMap (fun t2 => spc :: t2)).all p = true := by
  intro rest
  induction rest with
  | nil => intro _; rfl
  | cons t2 rest2 ih =>
    intro h
    simp only [List.flatMap_cons, List.all_append, List.all_cons, hspc,
      h t2 (List.mem_cons_self t2 rest2), ih (fun t3 ht3 => h t3 (List.mem_cons_of_mem t2 ht3))]
    rfl

theorem joinToks_all (p : Char → Bool) (hspc : p spc = true) (toks : List Str)
    (h : ∀ t ∈ toks, t.all p = true) : (joinToks toks).all p = true := by
  cases toks with
  | nil => rfl
  | cons t rest =>
    simp only [joinToks, List.all_append, h t (List.mem_cons_self t rest),
      flat_all p hspc rest (fun t3 ht3 => h t3 (List.mem_cons_of_mem t ht3))]
    rfl

theorem flatMap_map_tok (k : Str) : ∀ (l : List ℚ),
    (l.map (numTok k)).flatMap (fun t => spc :: t) = l.flatMap (fun q => spc :: numTok k q) := by
  intro l
  induction l with
  | nil => rfl
  | cons q t ih => simp only [List.map_cons, List.flatMap_cons, ih]

/-- The first continuation line of a multi-line array: promotes the scalar
into a two-row column. -/
theorem mat_first_cont (k : Str) (q h2 : ℚ) (rest : List Str) (d : MDoc)
    (hfresh : ¬ k ∈ d.map Prod.fst) (hgood : goodNum k q = true) :
    mdfLoadAux ((List.replicate 10 spc ++ numTok k q ++ [nlc]) :: rest)
      (d ++ [(k, MVal.num h2)]) (some k) =
    mdfLoadAux rest (d ++ [(k, MVal.mat [h2, q])]) (some k) := by
  obtain ⟨p1, -, p3, -, p5, p6⟩ := goodNum_props k q hgood
  have hline : (List.replicate 10 spc ++ numTok k q ++ [nlc] : Str)
      = (List.replicate 10 spc ++ numTok k q) ++ [nlc] := by simp
  rw [hline]
  simp only [mdfLoadAux, stripNL_concat]
  have hmm : matchesMain (List.replicate 10 spc ++ numTok k q) = none := by
    rw [show (10 : ℕ) = 9 + 1 from rfl, List.replicate_succ, List.cons_append]
    exact matchesMain_spc _
  have hmc : matchesCont (List.replicate 10 spc ++ numTok k q) = some (numTok k q) := by
    rw [show (10 : ℕ) = 9 + 1 from rfl]
    exact matchesCont_pad 9 _ (head_not_ws_of_forall _ p5)
  have hnohash : hasChar (List.replicate 10 spc ++ numTok k q) hashC = false := by
    have ha : (List.replicate 10 spc).any (fun d => decide (d = hashC)) = false := by
      rw [List.any_eq_false]
      intro a ha
      rw [List.eq_of_mem_replicate ha]
      decide
    have hb : (numTok k q).any (fun d => decide (d = hashC)) = false := by
      rw [List.any_eq_false]
      intro a ha2
      simpa using hasChar_false_forall _ _ p3 a ha2
    simp only [hasChar, List.any_append] at ha hb ⊢
    rw [ha, hb]
    rfl
  rw [hmm, hmc]
  simp only [contLine, hnohash, lookupA_append_last d k _ hfresh, p6,
    Bool.false_eq_true, if_false]
  rw [updA_append_last d k _ _ hfresh]

/-- The first continuation line of a multi-line string list: promotes the
string into a two-element list. -/
theorem vlist_first_cont (k : Str) (x h2 : Str) (rest : List Str) (d : MDoc)
    (hfresh : ¬ k ∈ d.map Prod.fst) (hx : hasChar x hashC = false) :
    mdfLoadAux ((List.replicate 9 spc ++ hashC :: x ++ [hashC, nlc]) :: rest)
      (d ++ [(k, MVal.vstr h2)]) (some k) =
    mdfLoadAux rest (d ++ [(k, MVal.vlist [h2, x])]) (some k) := by
  have hline : (List.replicate 9 spc ++ hashC :: x ++ [hashC, nlc] : Str)
      = (List.replicate 9 spc ++ (hashC :: x ++ [hashC])) ++ [nlc] := by simp
  rw [hline]
  simp only [mdfLoadAux, stripNL_concat]
  have hmm : matchesMain (List.replicate 9 spc ++ (hashC :: x ++ [hashC])) = none := by
    rw [show (9 : ℕ) = 8 + 1 from rfl, List.replicate_succ, List.cons_append]
    exact matchesMain_spc _
  have hmc : matchesCont (List.replicate 9 spc ++ (hashC :: x ++ [hashC]))
      = some (hashC :: x ++ [hashC]) := by
    rw [show (9 : ℕ) = 8 + 1 from rfl]
    apply matchesCont_pad
    intro c hc
    rw [show (hashC :: x ++ [hashC] : Str) = hashC :: (x ++ [hashC]) from by simp] at hc
    simp only [List.head?_cons, Option.some.injEq] at hc
    rw [← hc]
    decide
  have hyes : hasChar (List.replicate 9 spc ++ (hashC :: x ++ [hashC])) hashC = true := by
    simp [hasChar]
  rw [hmm, hmc]
  simp only [contLine, hyes, lookupA_append_last d k _ hfresh]
  rw [show ((hashC :: x ++ [hashC]) : Str) = (hashC :: x) ++ [hashC] from rfl,
    remHash_delims x hx]
  rw [updA_append_last d k _ _ hfresh]
  rw [if_pos trivial]

/-- Processing the full line block of one well-formed entry appends that
entry to the document. -/
theorem mdfLoadAux_entry (k : Str) (mv : MVal) (rest : List Str) (d : MDoc) (pn : Option Str)
    (hkey : wfKey k = true) (hval : wfVal k mv = true)
    (hfresh : ¬ k ∈ d.map Prod.fst) :
    mdfLoadAux (entryLines (k, mv) ++ rest) d pn = mdfLoadAux rest (d ++ [(k, mv)]) (some k) := by
  have hk : (¬ k.isEmpty = true ∧ k.all wordChar = true) ∧ ¬ k = "Commnt".toList := by
    simpa only [wfKey, Bool.and_eq_true, decide_eq_true_eq] using hkey
  have hk1 : ¬ k = [] := by simpa [List.isEmpty_iff] using hk.1.1
  have hk2 : k.all wordChar = true := hk.1.2
  have hk3 : ¬ k = "Commnt".toList := hk.2
  cases mv with
  | num q =>
    have hg : goodNum k q = true := by simpa only [wfVal] using hval
    obtain ⟨p1, p2, -, -, p5, -⟩ := goodNum_props k q hg
    simp only [entryLines, List.singleton_append]
    rw [headLine_step k (numTok k q) (.num q) rest d pn hk1 hk2 hk3
      (head_not_ws_of_forall _ p5) p2 (classify_num k q hg)]
    rw [updA_fresh d k _ hfresh]
  | arr l =>
    have hlv : 2 ≤ l.length ∧ ∀ q ∈ l, goodNum k q = true := by
      simpa only [wfVal, Bool.and_eq_true, decide_eq_true_eq, List.all_eq_true] using hval
    obtain ⟨hlen, hall⟩ := hlv
    cases l with
    | nil => simp at hlen
    | cons a l2 =>
      cases l2 with
      | nil => simp at hlen
      | cons b t =>
        simp only [entryLines, List.singleton_append]
        simp only [mdfLoadAux, stripNL_concat]
        rw [matchesMain_shape k _ hk1 hk2]
        have hvdw : ((a :: b :: t).flatMap (fun q => spc :: numTok k q)).dropWhile isWS
            = joinToks ((a :: b :: t).map (numTok k)) := by
          obtain ⟨q1, -, -, -, q5, -⟩ := goodNum_props k a (hall a (List.mem_cons_self a _))
          have hh : ∀ c, (numTok k a ++ ((b :: t).flatMap
              (fun q => spc :: numTok k q))).head? = some c → isWS c = false := by
            intro c hc
            rw [List.head?_append_of_ne_nil _ q1] at hc
            exact head_not_ws_of_forall _ q5 c hc
          rw [List.flatMap_cons, List.cons_append, List.dropWhile_cons_of_pos spc_ws,
            dropWhile_head_not _ hh, List.map_cons]
          simp only [joinToks]
          rw [flatMap_map_tok]
        rw [hvdw]
        have hclassall : (joinToks ((a :: b :: t).map (numTok k))).all valClassChar = true := by
          apply joinToks_all _ (by decide)
          intro s hs
          rcases List.mem_map.mp hs with ⟨q, hq, hsq⟩
          rw [← hsq]
          exact (goodNum_props k q (hall q hq)).2.1
        rw [if_pos hclassall]
        simp only [if_neg hk3, classify_arr k a b t hall]
        rw [updA_fresh d k _ hfresh]
  | mat l =>
    have hlv : 2 ≤ l.length ∧ ∀ q ∈ l, goodNum k q = true := by
      simpa only [wfVal, Bool.and_eq_true, decide_eq_true_eq, List.all_eq_true] using hval
    obtain ⟨hlen, hall⟩ := hlv
    cases l with
    | nil => simp at hlen
    | cons h l2 =>
      cases l2 with
      | nil => simp at hlen
      | cons b t =>
        have hgh : goodNum k h = true := hall h (List.mem_cons_self h _)
        obtain ⟨p1, p2, -, -, p5, -⟩ := goodNum_props k h hgh
        simp only [entryLines, List.cons_append, List.map_cons]
        rw [headLine_step k (numTok k h) (.num h) _ d pn hk1 hk2 hk3
          (head_not_ws_of_forall _ p5) p2 (classify_num k h hgh)]
        rw [updA_fresh d k _ hfresh]
        rw [mat_first_cont k b h _ d hfresh
          (hall b (List.mem_cons_of_mem h (List.mem_cons_self b t)))]
        rw [mat_cont_run k t [h, b] rest d hfresh
          (fun q hq => hall q (List.mem_cons_of_mem h (List.mem_cons_of_mem b hq)))]
        rfl
  | vstr s =>
    simp only [wfVal, Bool.and_eq_true] at hval
    obtain ⟨hclass, hcond⟩ := hval
    by_cases hb : hasChar s lbrkC = true
    · rw [if_pos hb] at hcond
      have hhead : ∀ c, s.head? = some c → isWS c = false := by
        intro c hc
        cases s with
        | nil => simp at hc
        | cons c2 t2 =>
          simp only [List.head?_cons, Option.some.injEq] at hc
          have h2 : isWS c2 = false := by simpa using hcond
          rw [← hc]
          exact h2
      simp only [entryLines]
      rw [if_pos hb, List.singleton_append]
      rw [headLine_step k s (.vstr s) rest d pn hk1 hk2 hk3 hhead hclass (classify_raw s hb)]
      rw [updA_fresh d k _ hfresh]
    · rw [if_neg hb] at hcond
      have hh : hasChar s hashC = false := by
        simpa using hcond
      have hbf : hasChar s lbrkC = false := by
        simpa using hb
      have hhead : ∀ c, ((hashC :: s ++ [hashC]) : Str).head? = some c → isWS c = false := by
        intro c hc
        rw [show (hashC :: s ++ [hashC] : Str) = hashC :: (s ++ [hashC]) from by simp] at hc
        simp only [List.head?_cons, Option.some.injEq] at hc
        rw [← hc]
        decide
      have hcls : ((hashC :: s ++ [hashC]) : Str).all valClassChar = true := by
        rw [show (hashC :: s ++ [hashC] : Str) = hashC :: (s ++ [hashC]) from by simp]
        simp only [List.all_cons, List.all_append, hclass]
        decide
      simp only [entryLines]
      rw [if_neg hb, List.singleton_append]
      rw [headLine_step k (hashC :: s ++ [hashC]) (.vstr s) rest d pn hk1 hk2 hk3 hhead hcls
        (classify_hash s hh hbf)]
      rw [updA_fresh d k _ hfresh]
  | vlist l =>
    have hlv : 2 ≤ l.length ∧ ∀ x ∈ l, x.all valClassChar = true ∧
        hasChar x hashC = false ∧ hasChar x lbrkC = false := by
      have := hval
      simp only [wfVal, Bool.and_eq_true, decide_eq_true_eq, List.all_eq_true] at this
      refine ⟨this.1, fun x hx => ?_⟩
      have h2 := this.2 x hx
      exact ⟨List.all_eq_true.mpr h2.1.1, Bool.eq_false_iff.mpr h2.1.2,
        Bool.eq_false_iff.mpr h2.2⟩
    obtain ⟨hlen, hall⟩ := hlv
    cases l with
    | nil => simp at hlen
    | cons h l2 =>
      cases l2 with
      | nil => simp at hlen
      | cons b t =>
        obtain ⟨g1, g2, g3⟩ := hall h (List.mem_cons_self h _)
        have hhead : ∀ c, ((hashC :: (h ++ [hashC])) : Str).head? = some c → isWS c = false := by
          intro c hc
          simp only [List.head?_cons, Option.some.injEq] at hc
          rw [← hc]
          decide
        have hcls : ((hashC :: (h ++ [hashC])) : Str).all valClassChar = true := by
          simp only [List.all_cons, List.all_append, g1]
          decide
        have hcl2 : classify (hashC :: (h ++ [hashC])) = some (MVal.vstr h) := by
          rw [← List.cons_append]
          exact classify_hash h g2 g3
        simp only [entryLines, List.cons_append, List.map_cons]
        rw [headLine_step k (hashC :: (h ++ [hashC])) (.vstr h) _ d pn hk1 hk2 hk3 hhead hcls
          hcl2]
        rw [updA_fresh d k _ hfresh]
        rw [vlist_first_cont k b h _ d hfresh
          (hall b (List.mem_cons_of_mem h (List.mem_cons_self b t))).2.1]
        rw [vlist_cont_run k t [h, b] rest d hfresh
          (fun x hx => ⟨(hall x (List.mem_cons_of_mem h (List.mem_cons_of_mem b hx))).1,
            (hall x (List.mem_cons_of_mem h (List.mem_cons_of_mem b hx))).2.1⟩)]
        rfl

/-- Processing the concatenated line blocks of a list of fresh, well-formed
entries appends all of them, in order. -/
theorem mdfLoadAux_doc (d2 : MDoc) : ∀ (d : MDoc) (pn : Option Str),
    (∀ e ∈ d2, wfKey e.1 = true ∧ wfVal e.1 e.2 = true) →
    (d2.map Prod.fst).Nodup →
    (∀ k ∈ d2.map Prod.fst, ¬ k ∈ d.map Prod.fst) →
    mdfLoadAux (d2.flatMap entryLines) d pn = some (d ++ d2) := by
  induction d2 with
  | nil =>
    intro d pn _ _ _
    simp [mdfLoadAux]
  | cons e t ih =>
    intro d pn hwf hnd hfr
    obtain ⟨k, mv⟩ := e
    have hke := hwf (k, mv) (List.mem_cons_self _ _)
    have hnds : ¬ k ∈ t.map Prod.fst ∧ (t.map Prod.fst).Nodup := by
      simpa only [List.map_cons, List.nodup_cons] using hnd
    have hfr2 : ∀ k2 ∈ t.map Prod.fst, ¬ k2 ∈ (d ++ [(k, mv)]).map Prod.fst := by
      intro k2 hk2
      rw [List.map_append, List.mem_append]
      rintro (hin | hin)
      · exact hfr k2 (by simp [hk2]) hin
      · simp only [List.map_cons, List.map_nil, List.mem_singleton] at hin
        rw [hin] at hk2
        exact hnds.1 hk2
    rw [List.flatMap_cons,
      mdfLoadAux_entry k mv (t.flatMap entryLines) d pn hke.1 hke.2
        (hfr k (by rw [List.map_cons]; exact List.mem_cons_self _ _)),
      ih (d ++ [(k, mv)]) (some k) (fun e2 he2 => hwf e2 (List.mem_cons_of_mem _ he2))
        hnds.2 hfr2]
    simp

/-- C1 counterexample: the one-line parameter file `Ag = 10` is well formed
(it parses successfully), yet exporting the parsed document renders the value
in scientific notation, so the round trip is not byte-identical. -/
theorem C1_mdf_roundtrip_counterexample :
    mdfLoad [mdfCxLine] = some [("Ag".toList, MVal.num 10)] ∧
    mdfExport [("Ag".toList, MVal.num 10)] ≠ [mdfCxLine] := by
  constructor
  · decide
  · decide

/-- C1 (amended): for every well-formed mdf document, parsing the exported
lines reproduces the document exactly, so the byte-for-byte round trip
`export (parse text) = text` holds precisely on the exporter's canonical
image; arbitrary well-formed input is value-preserving but
notation-normalizing. -/
theorem C1_mdf_roundtrip (d : MDoc) (h : wfMdf d = true) :
    mdfLoad (mdfExport d) = some d := by
  simp only [wfMdf, Bool.and_eq_true, List.all_eq_true, decide_eq_true_eq] at h
  have hp1 : ∀ e ∈ d, wfKey e.1 = true ∧ wfVal e.1 e.2 = true := by
    intro e he
    simpa only [Bool.and_eq_true] using h.1 e he
  have hrun := mdfLoadAux_doc d [] none hp1 h.2 (fun k _ => by simp)
  simpa [mdfLoad, mdfExport] using hrun

theorem C1_mdf_roundtrip_witness :
    wfMdf mdfWdoc = true ∧ mdfLoad (mdfExport mdfWdoc) = some mdfWdoc :=
  ⟨by decide, C1_mdf_roundtrip mdfWdoc (by decide)⟩
